import Mathlib

/-! Type conversions between MATLAB host arrays and Armadillo matrices.

A shallow embedding of `typeExg_matlab_arma.h`: the type-tag resolver
`hpers_TEMatArma::getMatlabType`, the element-wise converters `arma2matlab`
(matrix and cube), the constructors behind `matlab2arma` (matrix and cube) and
the `memcpy` fast paths `arma2matlabContig`.

Conventions of the embedding

* Element values are an arbitrary type `α` with a zero (the value a freshly
  created host array is filled with).  The C++ element type `T` is carried
  separately as a `CType`, because the only thing the header does with `T`
  besides moving values is to look up its class id.
* Machine integers are natural numbers or integers with explicit wrap-around:
  `int` is 32 bit two's complement, `unsigned int` and Armadillo's `uword` are
  32 bit (header comment, line 18), `size_t` and `mwSize` are 64 bit.
* A buffer is a `List α`; reading or writing outside of it is undefined
  behaviour in C++ and is reported as `none`, as is an exception.
* The two libraries are modelled by what their documentation says of the
  calls the header makes: `mxCreateNumericMatrix`, `mxCreateNumericArray`,
  `mxGetM`, `mxGetN`, `mxGetNumberOfDimensions`, `mxGetDimensions`,
  `mxGetData` on the host side, the auxiliary-memory constructors, `at`,
  `memptr` and the size members on the Armadillo side.  Allocation is taken to
  succeed and the class id is not interpreted.
* A `Mat` or `Cube` records sizes and elements, not who owns the memory: the
  assignment `matOut = <temporary>` of `matlab2arma` gives `matOut` the sizes
  and the elements of the temporary, and whether Armadillo moves the memory or
  copies it is not part of the model.
* The writes of `arma2matlab` are recorded by a second copy of its loops that
  differs only in keeping the list of destination indices.
-/

namespace TEMatArma

/-! ## Machine integers -/

/-- Conversion of an unsigned value to a 32 bit `int` (wraps modulo `2^32`). -/
def toInt32 (n : Nat) : Int :=
  if n % 2 ^ 32 < 2 ^ 31 then ((n % 2 ^ 32 : Nat) : Int)
  else ((n % 2 ^ 32 : Nat) : Int) - 2 ^ 32

/-- Conversion of an `int` to the 64 bit unsigned `mwSize` / `size_t`. -/
def toSizeT (z : Int) : Nat := (z % 2 ^ 64).toNat

/-- Conversion of a `size_t` to `unsigned int` (and to a 32 bit `uword`). -/
def toUInt32 (n : Nat) : Nat := n % 2 ^ 32

/-- Largest value of Armadillo's index type `uword` (32 bit, header line 18). -/
def ARMA_MAX_UWORD : Nat := 2 ^ 32 - 1

/-! ## The host side: `mxClassID` and `mxArray` -/

/-- The class identifiers of the MATLAB C matrix interface (`matrix.h`). -/
inductive mxClassID where
  | mxUNKNOWN_CLASS
  | mxCELL_CLASS
  | mxSTRUCT_CLASS
  | mxLOGICAL_CLASS
  | mxCHAR_CLASS
  | mxVOID_CLASS
  | mxDOUBLE_CLASS
  | mxSINGLE_CLASS
  | mxINT8_CLASS
  | mxUINT8_CLASS
  | mxINT16_CLASS
  | mxUINT16_CLASS
  | mxINT32_CLASS
  | mxUINT32_CLASS
  | mxINT64_CLASS
  | mxUINT64_CLASS
  | mxFUNCTION_CLASS
  deriving DecidableEq, Repr

/-- The C++ element types a template argument `T` can name.  The arithmetic
types are listed one by one; every other type is `other` with its name. -/
inductive CType where
  | bool
  | char
  | signed_char
  | unsigned_char
  | short
  | unsigned_short
  | int
  | unsigned_int
  | long
  | unsigned_long
  | long_long
  | unsigned_long_long
  | float
  | double
  | long_double
  | other (name : String)
  deriving DecidableEq, Repr

/-- A real numeric host array: its class id, its dimension vector and the
block `mxGetData` points to, read as elements of the template type. -/
structure mxArray (α : Type) where
  classID : mxClassID
  dims : List Nat
  data : List α
  deriving DecidableEq, Repr

/-- Invariants MATLAB keeps for every numeric array: at least two dimensions,
no trailing singleton beyond the second one, one data element per index. -/
def mxArray.wf {α : Type} (a : mxArray α) : Prop :=
  2 ≤ a.dims.length ∧ (2 < a.dims.length → a.dims.getLast? ≠ some 1) ∧
    a.data.length = a.dims.prod

/-- The number of rows, `mxGetM`: the first dimension. -/
def mxGetM {α : Type} (a : mxArray α) : Nat := a.dims.headD 0

/-- The number of columns, `mxGetN`: the product of all dimensions after the
first one. -/
def mxGetN {α : Type} (a : mxArray α) : Nat := a.dims.tail.prod

/-- The number of dimensions, `mxGetNumberOfDimensions`. -/
def mxGetNumberOfDimensions {α : Type} (a : mxArray α) : Nat := a.dims.length

/-- The dimension vector, `mxGetDimensions`. -/
def mxGetDimensions {α : Type} (a : mxArray α) : List Nat := a.dims

/-- The data block, `mxGetData`. -/
def mxGetData {α : Type} (a : mxArray α) : List α := a.data

/-- Removal of trailing singleton dimensions, never going below two
dimensions: what MATLAB does to the dimension vector of every array it
creates.  The argument is the reversed dimension vector. -/
def dropSingletonsRev : List Nat → List Nat
  | [] => []
  | d :: ds => if d = 1 ∧ 2 ≤ ds.length then dropSingletonsRev ds else d :: ds

/-- The dimension vector MATLAB stores for requested dimensions `dims`. -/
def normalizeDims (dims : List Nat) : List Nat :=
  (dropSingletonsRev dims.reverse).reverse

/-- The call `mxCreateNumericMatrix(m, n, classid, mxREAL)`: an `m`-by-`n`
array of the class, every element zero.  Allocation is taken to succeed. -/
def mxCreateNumericMatrix {α : Type} [Zero α] (m n : Nat) (classid : mxClassID) :
    mxArray α :=
  { classID := classid, dims := [m, n], data := List.replicate (m * n) 0 }

/-- The call `mxCreateNumericArray(ndim, dims, classid, mxREAL)`: an array of
the class with the requested dimensions, every element zero; MATLAB removes
trailing singleton dimensions from the result (the header records this at
lines 145 and 212).  Allocation is taken to succeed. -/
def mxCreateNumericArray {α : Type} [Zero α] (dims : List Nat) (classid : mxClassID) :
    mxArray α :=
  { classID := classid, dims := normalizeDims dims,
    data := List.replicate dims.prod 0 }

/-! ## The type-tag resolver -/

/-- The template `hpers_TEMatArma::getMatlabType<T>()`: eight explicit
specialisations, the primary template for every other type. -/
def getMatlabType : CType → mxClassID
  | .char => .mxINT8_CLASS
  | .unsigned_char => .mxUINT8_CLASS
  | .short => .mxINT16_CLASS
  | .unsigned_short => .mxUINT16_CLASS
  | .int => .mxINT32_CLASS
  | .unsigned_int => .mxUINT32_CLASS
  | .float => .mxSINGLE_CLASS
  | .double => .mxDOUBLE_CLASS
  | _ => .mxUNKNOWN_CLASS

/-- The eight element types that have a specialisation. -/
def supportedTypes : List CType :=
  [.char, .unsigned_char, .short, .unsigned_short, .int, .unsigned_int, .float, .double]

/-! ## The Armadillo side: `arma::Mat<T>` and `arma::Cube<T>` -/

/-- What the header uses of an `arma::Mat<T>`: the member constants `n_rows`,
`n_cols`, `n_elem`, the elements `memptr()` points to and the unchecked
element accessor `at(i, j)`. -/
structure Mat (α : Type) where
  n_rows : Nat
  n_cols : Nat
  n_elem : Nat
  mem : List α
  at_ : Nat → Nat → α

/-- What the header uses of an `arma::Cube<T>`: `n_rows`, `n_cols`,
`n_slices`, `n_elem`, the elements `memptr()` points to and the unchecked
element accessor `at(i, j, k)`. -/
structure Cube (α : Type) where
  n_rows : Nat
  n_cols : Nat
  n_slices : Nat
  n_elem : Nat
  mem : List α
  at_ : Nat → Nat → Nat → α

/-- A matrix whose backing memory is contiguous and column-major: the block
`memptr()` points to holds the `n_elem = n_rows * n_cols` elements and element
`(i, j)` is stored at offset `i + j * n_rows`. -/
def Mat.contiguous {α : Type} (M : Mat α) : Prop :=
  M.n_elem = M.n_rows * M.n_cols ∧ M.n_elem ≤ M.mem.length ∧
    ∀ i < M.n_rows, ∀ j < M.n_cols, M.mem[i + j * M.n_rows]? = some (M.at_ i j)

/-- A cube whose backing memory is contiguous: the block `memptr()` points to
holds the `n_elem = n_rows * n_cols * n_slices` elements and element
`(i, j, k)` is stored at offset `i + j * n_rows + k * n_rows * n_cols`. -/
def Cube.contiguous {α : Type} (C : Cube α) : Prop :=
  C.n_elem = C.n_rows * C.n_cols * C.n_slices ∧ C.n_elem ≤ C.mem.length ∧
    ∀ i < C.n_rows, ∀ j < C.n_cols, ∀ k < C.n_slices,
      C.mem[i + j * C.n_rows + k * C.n_rows * C.n_cols]? = some (C.at_ i j k)

/-- The constructor `arma::Mat<T>(aux_mem, aux_n_rows, aux_n_cols,
copy_aux_mem, strict)`.  `n_elem` is the `uword` product of the two sizes.  In
copy mode the constructor allocates `n_elem` elements, which throws when the
exact product exceeds `ARMA_MAX_UWORD`, and copies them out of the auxiliary
block, which reads past its end when the block is shorter; both are `none`.
In alias mode the matrix uses the auxiliary block, nothing is read and nothing
about the block is checked.  In both modes the elements of the matrix are the
first `n_elem` elements of the auxiliary block, and element `(i, j)` is
`mem[i + j * n_rows]` with the offset computed in `uword`.  The flag `strict`
only says how long a matrix that uses the auxiliary memory stays bound to it;
it changes neither the sizes nor the elements. -/
def Mat.fromAuxMem {α : Type} [Zero α] (aux_mem : List α) (aux_n_rows aux_n_cols : Nat)
    (copy_aux_mem strict : Bool) : Option (Mat α) :=
  let n_elem := (aux_n_rows * aux_n_cols) % 2 ^ 32
  let X : Mat α :=
    { n_rows := aux_n_rows, n_cols := aux_n_cols, n_elem := n_elem,
      mem := aux_mem.take n_elem,
      at_ := fun i j => (aux_mem.take n_elem).getD (toUInt32 (i + j * aux_n_rows)) 0 }
  match copy_aux_mem, strict with
  | true, _ =>
    if ARMA_MAX_UWORD < aux_n_rows * aux_n_cols then none
    else if aux_mem.length < n_elem then none
    else some X
  | false, _ => some X

/-- The constructor `arma::Cube<T>(aux_mem, aux_n_rows, aux_n_cols,
aux_n_slices, copy_aux_mem, strict)`, with the same conventions as
`Mat.fromAuxMem`; element `(i, j, k)` is
`mem[i + j * n_rows + k * (n_rows * n_cols)]` with the offset computed in
`uword`. -/
def Cube.fromAuxMem {α : Type} [Zero α] (aux_mem : List α)
    (aux_n_rows aux_n_cols aux_n_slices : Nat) (copy_aux_mem strict : Bool) :
    Option (Cube α) :=
  let n_elem := (aux_n_rows * aux_n_cols * aux_n_slices) % 2 ^ 32
  let X : Cube α :=
    { n_rows := aux_n_rows, n_cols := aux_n_cols, n_slices := aux_n_slices,
      n_elem := n_elem,
      mem := aux_mem.take n_elem,
      at_ := fun i j k =>
        (aux_mem.take n_elem).getD
          (toUInt32 (i + j * aux_n_rows + k * (aux_n_rows * aux_n_cols))) 0 }
  match copy_aux_mem, strict with
  | true, _ =>
    if ARMA_MAX_UWORD < aux_n_rows * aux_n_cols * aux_n_slices then none
    else if aux_mem.length < n_elem then none
    else some X
  | false, _ => some X

/-! ## Buffers and loops -/

/-- The assignment `dst_pointer[count++] = v` on the pair of the destination
block and the counter; a write past the end of the block is `none`.  The
counter is an `unsigned long`, which does not wrap while it counts the
elements of a block that fits into memory, so it is a natural number here. -/
def storeNext {α : Type} (v : α) (st : List α × Nat) : Option (List α × Nat) :=
  if st.2 < st.1.length then some (st.1.set st.2 v, st.2 + 1) else none

/-- The loop `for (int i = 0; i < n; i++) body(i)` over a state; it runs
`n` times when `n` is positive and not at all otherwise. -/
def forLoop {σ : Type} (n : Int) (body : Nat → σ → Option σ) (s : σ) : Option σ :=
  (List.range n.toNat).foldlM (fun st i => body i st) s

/-- The call `std::memcpy(dst, src, sizeof(T) * n)` in units of elements: the
first `n` elements of `dst` are replaced by the first `n` of `src`; `none`
when either block is shorter than `n`. -/
def memcpy {α : Type} (dst src : List α) (n : Nat) : Option (List α) :=
  if n ≤ src.length ∧ n ≤ dst.length then some (src.take n ++ dst.drop n) else none

/-! ## The converters of the header -/

/-- The overload `arma2matlab(const arma::Mat<T>&, mxArray*&)`, lines 128-142.
The sizes are narrowed to `int`, widened to `mwSize` for the allocation, and
the elements are written one by one, columns outermost. -/
def Mat.arma2matlab {α : Type} [Zero α] (T : CType) (matIn : Mat α) : Option (mxArray α) :=
  let nrows : Int := toInt32 matIn.n_rows
  let ncols : Int := toInt32 matIn.n_cols
  let matOut : mxArray α :=
    mxCreateNumericMatrix (toSizeT nrows) (toSizeT ncols) (getMatlabType T)
  let dst_pointer := mxGetData matOut
  let count : Nat := 0
  (forLoop ncols (fun j => forLoop nrows (fun i => storeNext (matIn.at_ i j)))
      (dst_pointer, count)).map
    (fun st => { matOut with data := st.1 })

/-- The overload `arma2matlab(const arma::Cube<T>&, mxArray*&)`, lines
146-164: as for a matrix, with three dimensions and slices outermost. -/
def Cube.arma2matlab {α : Type} [Zero α] (T : CType) (matIn : Cube α) : Option (mxArray α) :=
  let nrows : Int := toInt32 matIn.n_rows
  let ncols : Int := toInt32 matIn.n_cols
  let nchannels : Int := toInt32 matIn.n_slices
  let dims : List Nat := [toSizeT nrows, toSizeT ncols, toSizeT nchannels]
  let matOut : mxArray α := mxCreateNumericArray dims (getMatlabType T)
  let dst_pointer := mxGetData matOut
  let count : Nat := 0
  (forLoop nchannels (fun k => forLoop ncols (fun j =>
      forLoop nrows (fun i => storeNext (matIn.at_ i j k))))
      (dst_pointer, count)).map
    (fun st => { matOut with data := st.1 })

/-- The overload `matlab2arma(mxArray*, arma::Mat<T>&, copy_aux_mem, strict)`,
lines 167-171: the sizes `mxGetM` and `mxGetN` are passed as `uword`, and the
assignment to `matOut` gives it the sizes and the elements of the matrix the
constructor builds (`matOut` being a matrix whose size may change, such as the
default-constructed ones of the demos). -/
def Mat.matlab2arma {α : Type} [Zero α] (matIn : mxArray α)
    (copy_aux_mem strict : Bool) : Option (Mat α) :=
  Mat.fromAuxMem (mxGetData matIn) (toUInt32 (mxGetM matIn)) (toUInt32 (mxGetN matIn))
    copy_aux_mem strict

/-- The overload `matlab2arma(mxArray*, arma::Cube<T>&, copy_aux_mem, strict)`,
lines 175-185: the first two dimensions, and the third one unless the array
has exactly two, each cast to `unsigned int`; the assignment to `matOut` gives
it the sizes and the elements of the cube the constructor builds. -/
def Cube.matlab2arma {α : Type} [Zero α] (matIn : mxArray α)
    (copy_aux_mem strict : Bool) : Option (Cube α) :=
  let ndims : Int := toInt32 (mxGetNumberOfDimensions matIn)
  let dims := mxGetDimensions matIn
  let nrows : Nat := toUInt32 (dims.getD 0 0)
  let ncols : Nat := toUInt32 (dims.getD 1 0)
  let nchannels : Nat := if ndims = 2 then 1 else toUInt32 (dims.getD 2 0)
  Cube.fromAuxMem (mxGetData matIn) nrows ncols nchannels copy_aux_mem strict

/-- The overload `arma2matlabContig(const arma::Mat<T>&, mxArray*&)`, lines
202-209: the sizes go to the allocation unchanged and `n_elem` elements are
copied in one block. -/
def Mat.arma2matlabContig {α : Type} [Zero α] (T : CType) (matIn : Mat α) :
    Option (mxArray α) :=
  let matOut : mxArray α :=
    mxCreateNumericMatrix matIn.n_rows matIn.n_cols (getMatlabType T)
  let dst_pointer := mxGetData matOut
  let src_pointer := matIn.mem
  (memcpy dst_pointer src_pointer matIn.n_elem).map (fun d => { matOut with data := d })

/-- The overload `arma2matlabContig(const arma::Cube<T>&, mxArray*&)`, lines
218-227. -/
def Cube.arma2matlabContig {α : Type} [Zero α] (T : CType) (matIn : Cube α) :
    Option (mxArray α) :=
  let dims : List Nat := [matIn.n_rows, matIn.n_cols, matIn.n_slices]
  let matOut : mxArray α := mxCreateNumericArray dims (getMatlabType T)
  let dst_pointer := mxGetData matOut
  let src_pointer := matIn.mem
  (memcpy dst_pointer src_pointer matIn.n_elem).map (fun d => { matOut with data := d })

/-- The elements of a matrix in the order the loops of `arma2matlab` visit
them: column by column, rows innermost. -/
def colMajor {α : Type} (r c : Nat) (f : Nat → Nat → α) : List α :=
  (List.range c).flatMap (fun j => (List.range r).map (fun i => f i j))

/-- The elements of a cube in the order the loops of `arma2matlab` visit them:
slice by slice, each slice column by column. -/
def sliceMajor {α : Type} (r c s : Nat) (f : Nat → Nat → Nat → α) : List α :=
  (List.range s).flatMap (fun k => colMajor r c (fun i j => f i j k))

/-! ## Arithmetic on a matrix -/

/-- The value of an `int` computation whose exact result is `z`: two's
complement wrap-around to 32 bits. -/
def wrapInt32 (z : Int) : Int := (z + 2 ^ 31) % 2 ^ 32 - 2 ^ 31

/-- The expression `X + k` of an `arma::Mat<int>` and an `int` scalar, as in
the demo `Y_cv = X_cv + 2`: a matrix of the same size with its own memory,
whose `i`-th element is `X.mem[i] + k` in `int` arithmetic; `none` when the
block of `X` does not hold `n_elem` elements. -/
def Mat.scalar_plus (X : Mat Int) (k : Int) : Option (Mat Int) :=
  if X.mem.length < X.n_elem then none
  else
    let out_mem := (X.mem.take X.n_elem).map (fun x => wrapInt32 (x + k))
    some
      { n_rows := X.n_rows, n_cols := X.n_cols, n_elem := X.n_elem,
        mem := out_mem,
        at_ := fun i j => out_mem.getD (toUInt32 (i + j * X.n_rows)) 0 }

/-! ## The general path with a record of its writes -/

/-- The assignment `dst_pointer[count++] = v` as in `storeNext`, with a record
of the destination indices written so far. -/
def storeNextLog {α : Type} (v : α) (st : (List α × Nat) × List Nat) :
    Option ((List α × Nat) × List Nat) :=
  (storeNext v st.1).map (fun s => (s, st.2 ++ [st.1.2]))

/-- The matrix overload of `arma2matlab` as in `Mat.arma2matlab`, returning
also the final value of `count` and the destination indices written, in the
order of the writes. -/
def Mat.arma2matlabLog {α : Type} [Zero α] (T : CType) (matIn : Mat α) :
    Option (mxArray α × Nat × List Nat) :=
  let nrows : Int := toInt32 matIn.n_rows
  let ncols : Int := toInt32 matIn.n_cols
  let matOut : mxArray α :=
    mxCreateNumericMatrix (toSizeT nrows) (toSizeT ncols) (getMatlabType T)
  let dst_pointer := mxGetData matOut
  let count : Nat := 0
  (forLoop ncols (fun j => forLoop nrows (fun i => storeNextLog (matIn.at_ i j)))
      ((dst_pointer, count), [])).map
    (fun st => ({ matOut with data := st.1.1 }, st.1.2, st.2))

/-- The cube overload of `arma2matlab` as in `Cube.arma2matlab`, returning also
the final value of `count` and the destination indices written, in the order
of the writes. -/
def Cube.arma2matlabLog {α : Type} [Zero α] (T : CType) (matIn : Cube α) :
    Option (mxArray α × Nat × List Nat) :=
  let nrows : Int := toInt32 matIn.n_rows
  let ncols : Int := toInt32 matIn.n_cols
  let nchannels : Int := toInt32 matIn.n_slices
  let dims : List Nat := [toSizeT nrows, toSizeT ncols, toSizeT nchannels]
  let matOut : mxArray α := mxCreateNumericArray dims (getMatlabType T)
  let dst_pointer := mxGetData matOut
  let count : Nat := 0
  (forLoop nchannels (fun k => forLoop ncols (fun j =>
      forLoop nrows (fun i => storeNextLog (matIn.at_ i j k))))
      ((dst_pointer, count), [])).map
    (fun st => ({ matOut with data := st.1.1 }, st.1.2, st.2))

/-! ## Concrete inputs -/

/-- The host array of the first demo in the header: `int32([1,2;3,4])`,
stored column by column. -/
def demoX : mxArray Int :=
  { classID := .mxINT32_CLASS, dims := [2, 2], data := [1, 3, 2, 4] }

/-- The host array of the second demo in the header, two slices `[1,2;3,4]`
(with integers standing for the single precision values). -/
def demoX3 : mxArray Int :=
  { classID := .mxSINGLE_CLASS, dims := [2, 2, 2], data := [1, 3, 2, 4, 1, 3, 2, 4] }

/-- The empty host array `zeros(2^31, 0, 'int32')`. -/
def hostTall : mxArray Int :=
  { classID := .mxINT32_CLASS, dims := [2 ^ 31, 0], data := [] }

/-- The host array `zeros(65536, 65536, 'int8')`, of `2^32` elements. -/
def hostSquare : mxArray Int :=
  { classID := .mxINT8_CLASS, dims := [65536, 65536], data := List.replicate (2 ^ 32) 0 }

/-- The empty host array `zeros(2^31, 0, 2, 'single')`. -/
def hostTall3 : mxArray Int :=
  { classID := .mxSINGLE_CLASS, dims := [2 ^ 31, 0, 2], data := [] }

/-- The host array `zeros(65536, 65536, 2, 'int8')`, of `2^33` elements. -/
def hostSquare3 : mxArray Int :=
  { classID := .mxINT8_CLASS, dims := [65536, 65536, 2], data := List.replicate (2 ^ 33) 0 }

/-- The empty host array `zeros(2^32, 0, 'int32')`. -/
def hostWide : mxArray Int :=
  { classID := .mxINT32_CLASS, dims := [2 ^ 32, 0], data := [] }

/-- The matrix `arma::Mat<int>(2147483648, 0)`: it has no elements. -/
def matTall : Mat Int :=
  { n_rows := 2 ^ 31, n_cols := 0, n_elem := 0, mem := [],
    at_ := fun _ _ => 0 }

/-- The cube `arma::Cube<int>(2147483648, 0, 2)`: it has no elements. -/
def cubeTall : Cube Int :=
  { n_rows := 2 ^ 31, n_cols := 0, n_slices := 2, n_elem := 0, mem := [],
    at_ := fun _ _ _ => 0 }

/-- The cube `arma::Cube<int>(2147483648, 0, 1)`: one slice, no elements. -/
def cubeTallFlat : Cube Int :=
  { n_rows := 2 ^ 31, n_cols := 0, n_slices := 1, n_elem := 0, mem := [],
    at_ := fun _ _ _ => 0 }

/-- The matrix `[1,2;3,4]` with its own column-major storage. -/
def demoMat : Mat Int :=
  { n_rows := 2, n_cols := 2, n_elem := 4, mem := [1, 3, 2, 4],
    at_ := fun i j => [1, 3, 2, 4].getD (i + j * 2) 0 }

/-- The cube with the single slice `[1,2;3,4]`. -/
def demoCubeFlat : Cube Int :=
  { n_rows := 2, n_cols := 2, n_slices := 1, n_elem := 4, mem := [1, 3, 2, 4],
    at_ := fun i j k => [1, 3, 2, 4].getD (i + j * 2 + k * (2 * 2)) 0 }

/-- The cube with the two slices `[1,2;3,4]` and `[5,6;7,8]`. -/
def demoCube : Cube Int :=
  { n_rows := 2, n_cols := 2, n_slices := 2, n_elem := 8, mem := [1, 3, 2, 4, 5, 7, 6, 8],
    at_ := fun i j k => [1, 3, 2, 4, 5, 7, 6, 8].getD (i + j * 2 + k * (2 * 2)) 0 }

/-- A three-dimensional host array of shape `(2, 1, 3)`. -/
def hostThreeD : mxArray Int :=
  { classID := .mxINT32_CLASS, dims := [2, 1, 3], data := [1, 2, 3, 4, 5, 6] }

/-- The host array `zeros(65536, 65536, 'int32')`, of `2^32` elements. -/
def hostSquareInt : mxArray Int :=
  { classID := .mxINT32_CLASS, dims := [65536, 65536], data := List.replicate (2 ^ 32) 0 }

/-- The matrix `arma::Mat<char>(2147483648, 1)` filled with ones: one column
of `2^31` elements. -/
def matTallOnes : Mat Int :=
  { n_rows := 2 ^ 31, n_cols := 1, n_elem := 2 ^ 31, mem := List.replicate (2 ^ 31) 1,
    at_ := fun _ _ => 1 }

/-- The empty host array `zeros(2^32, 0, 2, 'int32')`. -/
def hostWide3 : mxArray Int :=
  { classID := .mxINT32_CLASS, dims := [2 ^ 32, 0, 2], data := [] }

/-- The host array of shape `(65536, 65536, 2)` whose first slice holds zeros
and whose second slice holds ones, `2^33` elements of type `int8`. -/
def hostSquareSteps3 : mxArray Int :=
  { classID := .mxINT8_CLASS, dims := [65536, 65536, 2],
    data := List.replicate (2 ^ 32) 0 ++ List.replicate (2 ^ 32) 1 }

/-- The empty four-dimensional host array `zeros(2, 2, 2, 0, 'int32')`. -/
def hostFourEmpty : mxArray Int :=
  { classID := .mxINT32_CLASS, dims := [2, 2, 2, 0], data := [] }

/-- A four-dimensional host array of shape `(2, 1, 2, 2)` holding `1..8`. -/
def hostFourD : mxArray Int :=
  { classID := .mxINT32_CLASS, dims := [2, 1, 2, 2], data := [1, 2, 3, 4, 5, 6, 7, 8] }

/-- A loop body that writes the block `blk` at the counter and advances the
counter past it, whenever the block fits into the destination. -/
def Writes {α : Type} (body : List α × Nat → Option (List α × Nat)) (blk : List α) : Prop :=
  ∀ dst k, k + blk.length ≤ dst.length →
    body (dst, k) = some (dst.take k ++ blk ++ dst.drop (k + blk.length), k + blk.length)

/-- A loop body with a record of its writes that writes the block `blk` at the
counter, to the consecutive indices from the counter on, and advances the
counter past it, whenever the block fits into the destination. -/
def WritesLog {α : Type}
    (body : (List α × Nat) × List Nat → Option ((List α × Nat) × List Nat))
    (blk : List α) : Prop :=
  ∀ dst k log, k + blk.length ≤ dst.length →
    body ((dst, k), log) =
      some ((dst.take k ++ blk ++ dst.drop (k + blk.length), k + blk.length),
        log ++ List.range' k blk.length)

instance {α : Type} [DecidableEq α] (a : mxArray α) : Decidable a.wf := by
  unfold mxArray.wf; infer_instance

instance {α : Type} [DecidableEq α] (M : Mat α) : Decidable M.contiguous := by
  unfold Mat.contiguous; infer_instance

instance {α : Type} [DecidableEq α] (C : Cube α) : Decidable C.contiguous := by
  unfold Cube.contiguous; infer_instance

/-! ## Machine integer lemmas -/

theorem toInt32_of_lt {n : Nat} (h : n < 2 ^ 31) : toInt32 n = (n : Int) := by
  have h1 : n % 2 ^ 32 = n := Nat.mod_eq_of_lt (by omega)
  unfold toInt32
  rw [h1, if_pos h]

theorem toInt32_toNat_le (n : Nat) : (toInt32 n).toNat ≤ toSizeT (toInt32 n) := by
  unfold toInt32 toSizeT
  have hm : n % 2 ^ 32 < 2 ^ 32 := Nat.mod_lt _ (by norm_num)
  split <;> omega

theorem toSizeT_of_lt {n : Nat} (h : n < 2 ^ 31) : toSizeT (toInt32 n) = n := by
  rw [toInt32_of_lt h]
  unfold toSizeT
  omega

theorem toUInt32_of_lt {n : Nat} (h : n < 2 ^ 32) : toUInt32 n = n :=
  Nat.mod_eq_of_lt h

/-! ## Loop lemmas -/

theorem writes_storeNext {α : Type} (v : α) : Writes (storeNext v) [v] := by
  intro dst k h
  simp only [List.length_singleton] at h
  have hk : k < dst.length := by omega
  simp only [storeNext, hk, if_true, List.set_eq_take_append_cons_drop,
    List.length_singleton, List.append_assoc, List.singleton_append]

theorem blit_blit {α : Type} (A xs ys D : List α) (n : Nat) (hA : (A ++ xs).length = n) :
    List.take n (A ++ xs ++ D) ++ ys ++ List.drop (n + ys.length) (A ++ xs ++ D) =
      A ++ (xs ++ ys) ++ List.drop ys.length D := by
  subst hA
  rw [List.take_left, List.drop_append]
  simp only [List.append_assoc]

theorem writes_seq {α : Type} {f g : List α × Nat → Option (List α × Nat)} {xs ys : List α}
    (hf : Writes f xs) (hg : Writes g ys) : Writes (fun st => f st >>= g) (xs ++ ys) := by
  intro dst k h
  simp only [List.length_append] at h
  have hk : (List.take k dst).length = k := by
    simp only [List.length_take]; omega
  have hA : (List.take k dst ++ xs).length = k + xs.length := by
    simp only [List.length_append, hk]
  show f (dst, k) >>= g = _
  rw [hf dst k (by omega)]
  simp only [Option.some_bind, Option.bind_eq_bind]
  rw [hg _ _ (by simp only [List.length_append, List.length_drop, hk]; omega),
    blit_blit _ _ _ _ _ hA, List.drop_drop, List.length_append]
  simp only [Nat.add_assoc, Nat.add_comm]

theorem writes_nil {α : Type} : Writes (fun st : List α × Nat => some st) [] := by
  intro dst k _
  simp only [List.append_nil, List.length_nil, Nat.add_zero, List.take_append_drop]

theorem writes_forLoop {α : Type} (n : Int) (body : Nat → List α × Nat → Option (List α × Nat))
    (blk : Nat → List α) (h : ∀ i, Writes (body i) (blk i)) :
    Writes (forLoop n body) ((List.range n.toNat).flatMap blk) := by
  unfold forLoop
  generalize n.toNat = m
  induction m with
  | zero => simpa using writes_nil
  | succ m ih =>
    have := writes_seq ih (h m)
    simpa [List.range_succ, List.foldlM_append, List.flatMap_append] using this

theorem flatMap_single {α : Type} (f : Nat → α) (l : List Nat) :
    l.flatMap (fun i => [f i]) = l.map f := by
  induction l with
  | nil => rfl
  | cons a l ih => simp only [List.flatMap_cons, ih, List.singleton_append, List.map_cons]

theorem colMajor_succ {α : Type} (r c : Nat) (f : Nat → Nat → α) :
    colMajor r (c + 1) f = colMajor r c f ++ (List.range r).map (fun i => f i c) := by
  simp only [colMajor, List.range_succ, List.flatMap_append, List.flatMap_cons,
    List.flatMap_nil, List.append_nil]

theorem length_colMajor {α : Type} (r c : Nat) (f : Nat → Nat → α) :
    (colMajor r c f).length = r * c := by
  induction c with
  | zero => simp [colMajor]
  | succ c ih =>
    rw [colMajor_succ, List.length_append, ih, List.length_map, List.length_range, Nat.mul_succ]

theorem sliceMajor_succ {α : Type} (r c s : Nat) (f : Nat → Nat → Nat → α) :
    sliceMajor r c (s + 1) f = sliceMajor r c s f ++ colMajor r c (fun i j => f i j s) := by
  simp only [sliceMajor, List.range_succ, List.flatMap_append, List.flatMap_cons,
    List.flatMap_nil, List.append_nil]

theorem length_sliceMajor {α : Type} (r c s : Nat) (f : Nat → Nat → Nat → α) :
    (sliceMajor r c s f).length = r * c * s := by
  induction s with
  | zero => simp [sliceMajor]
  | succ s ih =>
    rw [sliceMajor_succ, List.length_append, ih, length_colMajor, Nat.mul_succ]

/-- The two nested loops of the matrix overload write the elements in
column-major order. -/
theorem writes_matLoops {α : Type} (nrows ncols : Int) (f : Nat → Nat → α) :
    Writes (forLoop ncols (fun j => forLoop nrows (fun i => storeNext (f i j))))
      (colMajor nrows.toNat ncols.toNat f) := by
  have h := writes_forLoop ncols
    (fun j => forLoop nrows (fun i => storeNext (f i j)))
    (fun j => (List.range nrows.toNat).flatMap (fun i => [f i j]))
    (fun j => writes_forLoop nrows _ _ (fun i => writes_storeNext (f i j)))
  simpa only [flatMap_single, colMajor] using h

/-- The three nested loops of the cube overload write the elements slice by
slice, each slice in column-major order. -/
theorem writes_cubeLoops {α : Type} (nrows ncols nchannels : Int) (f : Nat → Nat → Nat → α) :
    Writes (forLoop nchannels (fun k => forLoop ncols (fun j =>
        forLoop nrows (fun i => storeNext (f i j k)))))
      (sliceMajor nrows.toNat ncols.toNat nchannels.toNat f) := by
  have h := writes_forLoop nchannels
    (fun k => forLoop ncols (fun j => forLoop nrows (fun i => storeNext (f i j k))))
    (fun k => colMajor nrows.toNat ncols.toNat (fun i j => f i j k))
    (fun k => writes_matLoops nrows ncols (fun i j => f i j k))
  simpa only [sliceMajor] using h

/-- What the matrix overload of `arma2matlab` returns, for every matrix: it
never writes outside the block it allocated, the dimensions are the `int`
images of the sizes read as `mwSize`, and the data is the column-major
enumeration of the elements the loops visit, followed by the zeros that were
never overwritten. -/
theorem mat_arma2matlab_eq {α : Type} [Zero α] (T : CType) (M : Mat α) :
    M.arma2matlab T = some
      { classID := getMatlabType T,
        dims := [toSizeT (toInt32 M.n_rows), toSizeT (toInt32 M.n_cols)],
        data := colMajor (toInt32 M.n_rows).toNat (toInt32 M.n_cols).toNat M.at_ ++
          List.replicate (toSizeT (toInt32 M.n_rows) * toSizeT (toInt32 M.n_cols) -
            (toInt32 M.n_rows).toNat * (toInt32 M.n_cols).toNat) 0 } := by
  have hfit : (toInt32 M.n_rows).toNat * (toInt32 M.n_cols).toNat ≤
      toSizeT (toInt32 M.n_rows) * toSizeT (toInt32 M.n_cols) :=
    Nat.mul_le_mul (toInt32_toNat_le _) (toInt32_toNat_le _)
  have h := writes_matLoops (toInt32 M.n_rows) (toInt32 M.n_cols) M.at_
    (List.replicate (toSizeT (toInt32 M.n_rows) * toSizeT (toInt32 M.n_cols)) (0 : α)) 0
    (by simp only [length_colMajor, List.length_replicate]; omega)
  simp only [Mat.arma2matlab, mxCreateNumericMatrix, mxGetData, h, Option.map_some',
    List.take_zero, List.nil_append, Nat.zero_add, List.drop_replicate, length_colMajor]

/-- What the cube overload of `arma2matlab` returns, for every cube. -/
theorem cube_arma2matlab_eq {α : Type} [Zero α] (T : CType) (C : Cube α) :
    C.arma2matlab T = some
      { classID := getMatlabType T,
        dims := normalizeDims
          [toSizeT (toInt32 C.n_rows), toSizeT (toInt32 C.n_cols), toSizeT (toInt32 C.n_slices)],
        data := sliceMajor (toInt32 C.n_rows).toNat (toInt32 C.n_cols).toNat
            (toInt32 C.n_slices).toNat C.at_ ++
          List.replicate (toSizeT (toInt32 C.n_rows) * toSizeT (toInt32 C.n_cols) *
              toSizeT (toInt32 C.n_slices) -
            (toInt32 C.n_rows).toNat * (toInt32 C.n_cols).toNat * (toInt32 C.n_slices).toNat)
            0 } := by
  have hfit : (toInt32 C.n_rows).toNat * (toInt32 C.n_cols).toNat * (toInt32 C.n_slices).toNat ≤
      toSizeT (toInt32 C.n_rows) * toSizeT (toInt32 C.n_cols) * toSizeT (toInt32 C.n_slices) :=
    Nat.mul_le_mul (Nat.mul_le_mul (toInt32_toNat_le _) (toInt32_toNat_le _))
      (toInt32_toNat_le _)
  have h := writes_cubeLoops (toInt32 C.n_rows) (toInt32 C.n_cols) (toInt32 C.n_slices) C.at_
    (List.replicate (toSizeT (toInt32 C.n_rows) * toSizeT (toInt32 C.n_cols) *
      toSizeT (toInt32 C.n_slices)) (0 : α)) 0
    (by simp only [length_sliceMajor, List.length_replicate]; omega)
  simp only [Cube.arma2matlab, mxCreateNumericArray, mxGetData, List.prod_cons, List.prod_nil,
    Nat.mul_one, ← Nat.mul_assoc, h, Option.map_some', List.take_zero, List.nil_append,
    Nat.zero_add, List.drop_replicate, length_sliceMajor]

/-! ## Column-major enumeration of a contiguous block -/

theorem index_lt_mul {i j r c : Nat} (hi : i < r) (hj : j < c) : i + j * r < r * c := by
  have h : (j + 1) * r ≤ c * r := Nat.mul_le_mul_right r hj
  rw [Nat.succ_mul, Nat.mul_comm c r] at h
  omega

theorem map_range_eq_take {α : Type} (l : List α) (g : Nat → α) (r : Nat)
    (h : ∀ i < r, l[i]? = some (g i)) : (List.range r).map g = l.take r := by
  apply List.ext_getElem?
  intro n
  rcases Nat.lt_or_ge n r with hn | hn
  · rw [List.getElem?_take_of_lt hn, h n hn, List.getElem?_map, List.getElem?_range hn]
    rfl
  · rw [List.getElem?_eq_none (by simp only [List.length_map, List.length_range]; exact hn),
      List.getElem?_eq_none (by simp only [List.length_take]; omega)]

theorem colMajor_eq_take {α : Type} (l : List α) (f : Nat → Nat → α) (r c : Nat)
    (h : ∀ i < r, ∀ j < c, l[i + j * r]? = some (f i j)) :
    colMajor r c f = l.take (r * c) := by
  induction c with
  | zero => simp [colMajor]
  | succ c ih =>
    rw [colMajor_succ, ih (fun i hi j hj => h i hi j (by omega)), Nat.mul_succ, List.take_add]
    congr 1
    apply map_range_eq_take
    intro i hi
    rw [List.getElem?_drop, ← h i hi c (by omega), Nat.mul_comm r c, Nat.add_comm]

theorem sliceMajor_eq_take {α : Type} (l : List α) (f : Nat → Nat → Nat → α) (r c s : Nat)
    (h : ∀ i < r, ∀ j < c, ∀ k < s, l[i + j * r + k * r * c]? = some (f i j k)) :
    sliceMajor r c s f = l.take (r * c * s) := by
  induction s with
  | zero => simp [sliceMajor]
  | succ s ih =>
    rw [sliceMajor_succ, ih (fun i hi j hj k hk => h i hi j hj k (by omega)), Nat.mul_succ,
      List.take_add]
    congr 1
    apply colMajor_eq_take
    intro i hi j hj
    rw [List.getElem?_drop, ← h i hi j hj s (by omega)]
    congr 1
    rw [Nat.mul_assoc s r c, Nat.mul_comm s (r * c), Nat.add_comm]

theorem index3_lt_mul {i j k r c n : Nat} (hi : i < r) (hj : j < c) (hk : k < n) :
    i + j * r + k * r * c < r * c * n := by
  have h1 := index_lt_mul hi hj
  have h2 : (k + 1) * (r * c) ≤ n * (r * c) := Nat.mul_le_mul_right _ hk
  rw [Nat.succ_mul, Nat.mul_comm n (r * c)] at h2
  rw [Nat.mul_assoc k r c]
  omega

theorem getElem?_eq_some_getD {α : Type} (l : List α) (n : Nat) (d : α) (h : n < l.length) :
    l[n]? = some (l.getD n d) := by
  rw [List.getD_eq_getElem?_getD, List.getElem?_eq_getElem h, Option.getD_some]

/-! ## The fast path and the constructors -/

/-- What the matrix overload of `arma2matlabContig` returns on a contiguous
matrix. -/
theorem mat_arma2matlabContig_eq {α : Type} [Zero α] (T : CType) (M : Mat α)
    (h : M.contiguous) :
    M.arma2matlabContig T = some
      { classID := getMatlabType T, dims := [M.n_rows, M.n_cols],
        data := colMajor M.n_rows M.n_cols M.at_ } := by
  obtain ⟨hn, hm, hat⟩ := h
  have hcm := colMajor_eq_take M.mem M.at_ M.n_rows M.n_cols hat
  simp only [Mat.arma2matlabContig, memcpy, mxCreateNumericMatrix, mxGetData,
    List.length_replicate, hn, hcm]
  rw [if_pos ⟨by omega, le_refl _⟩]
  simp only [Option.map_some', List.drop_replicate, Nat.sub_self, List.replicate_zero,
    List.append_nil]

/-- What the cube overload of `arma2matlabContig` returns on a contiguous
cube. -/
theorem cube_arma2matlabContig_eq {α : Type} [Zero α] (T : CType) (C : Cube α)
    (h : C.contiguous) :
    C.arma2matlabContig T = some
      { classID := getMatlabType T, dims := normalizeDims [C.n_rows, C.n_cols, C.n_slices],
        data := sliceMajor C.n_rows C.n_cols C.n_slices C.at_ } := by
  obtain ⟨hn, hm, hat⟩ := h
  have hcm := sliceMajor_eq_take C.mem C.at_ C.n_rows C.n_cols C.n_slices hat
  simp only [Cube.arma2matlabContig, memcpy, mxCreateNumericArray, mxGetData,
    List.length_replicate, hn, hcm, List.prod_cons, List.prod_nil, Nat.mul_one,
    ← Nat.mul_assoc]
  rw [if_pos ⟨by omega, le_refl _⟩]
  simp only [Option.map_some', List.drop_replicate, Nat.sub_self, List.replicate_zero,
    List.append_nil]

/-- The general path on a matrix whose sizes fit into `int`. -/
theorem mat_arma2matlab_of_small {α : Type} [Zero α] (T : CType) (M : Mat α)
    (hr : M.n_rows < 2 ^ 31) (hc : M.n_cols < 2 ^ 31) :
    M.arma2matlab T = some
      { classID := getMatlabType T, dims := [M.n_rows, M.n_cols],
        data := colMajor M.n_rows M.n_cols M.at_ } := by
  rw [mat_arma2matlab_eq, toSizeT_of_lt hr, toSizeT_of_lt hc, toInt32_of_lt hr,
    toInt32_of_lt hc]
  simp only [Int.toNat_ofNat, Nat.sub_self, List.replicate_zero, List.append_nil]

/-- The general path on a cube whose sizes fit into `int`. -/
theorem cube_arma2matlab_of_small {α : Type} [Zero α] (T : CType) (C : Cube α)
    (hr : C.n_rows < 2 ^ 31) (hc : C.n_cols < 2 ^ 31) (hs : C.n_slices < 2 ^ 31) :
    C.arma2matlab T = some
      { classID := getMatlabType T, dims := normalizeDims [C.n_rows, C.n_cols, C.n_slices],
        data := sliceMajor C.n_rows C.n_cols C.n_slices C.at_ } := by
  rw [cube_arma2matlab_eq, toSizeT_of_lt hr, toSizeT_of_lt hc, toSizeT_of_lt hs,
    toInt32_of_lt hr, toInt32_of_lt hc, toInt32_of_lt hs]
  simp only [Int.toNat_ofNat, Nat.sub_self, List.replicate_zero, List.append_nil]

theorem normalizeDims_three (r c n : Nat) :
    normalizeDims [r, c, n] = if n = 1 then [r, c] else [r, c, n] := by
  by_cases h : n = 1 <;> simp [normalizeDims, dropSingletonsRev, h]

/-- Copy-mode construction of a matrix over a block that holds the elements. -/
theorem mat_fromAuxMem_copy {α : Type} [Zero α] (aux_mem : List α) (r c : Nat) (strict : Bool)
    (hn : r * c < 2 ^ 32) (hlen : r * c ≤ aux_mem.length) :
    Mat.fromAuxMem aux_mem r c true strict = some
      { n_rows := r, n_cols := c, n_elem := r * c, mem := aux_mem.take (r * c),
        at_ := fun i j => (aux_mem.take (r * c)).getD (toUInt32 (i + j * r)) 0 } := by
  have h1 : ¬ ARMA_MAX_UWORD < r * c := by unfold ARMA_MAX_UWORD; omega
  have h2 : r * c % 2 ^ 32 = r * c := Nat.mod_eq_of_lt hn
  simp only [Mat.fromAuxMem, h1, if_false, h2, Nat.not_lt.mpr hlen]

/-- Copy-mode construction of a cube over a block that holds the elements. -/
theorem cube_fromAuxMem_copy {α : Type} [Zero α] (aux_mem : List α) (r c n : Nat)
    (strict : Bool) (hn : r * c * n < 2 ^ 32) (hlen : r * c * n ≤ aux_mem.length) :
    Cube.fromAuxMem aux_mem r c n true strict = some
      { n_rows := r, n_cols := c, n_slices := n, n_elem := r * c * n,
        mem := aux_mem.take (r * c * n),
        at_ := fun i j k =>
          (aux_mem.take (r * c * n)).getD (toUInt32 (i + j * r + k * (r * c))) 0 } := by
  have h1 : ¬ ARMA_MAX_UWORD < r * c * n := by unfold ARMA_MAX_UWORD; omega
  have h2 : r * c * n % 2 ^ 32 = r * c * n := Nat.mod_eq_of_lt hn
  simp only [Cube.fromAuxMem, h1, if_false, h2, Nat.not_lt.mpr hlen]

/-- Alias-mode construction of a cube always succeeds and reads nothing. -/
theorem cube_fromAuxMem_alias {α : Type} [Zero α] (aux_mem : List α) (r c n : Nat)
    (strict : Bool) :
    Cube.fromAuxMem aux_mem r c n false strict = some
      { n_rows := r, n_cols := c, n_slices := n, n_elem := r * c * n % 2 ^ 32,
        mem := aux_mem.take (r * c * n % 2 ^ 32),
        at_ := fun i j k =>
          (aux_mem.take (r * c * n % 2 ^ 32)).getD
            (toUInt32 (i + j * r + k * (r * c))) 0 } :=
  rfl

/-- Alias-mode construction of a matrix always succeeds and reads nothing. -/
theorem mat_fromAuxMem_alias {α : Type} [Zero α] (aux_mem : List α) (r c : Nat)
    (strict : Bool) :
    Mat.fromAuxMem aux_mem r c false strict = some
      { n_rows := r, n_cols := c, n_elem := r * c % 2 ^ 32,
        mem := aux_mem.take (r * c % 2 ^ 32),
        at_ := fun i j => (aux_mem.take (r * c % 2 ^ 32)).getD (toUInt32 (i + j * r)) 0 } :=
  rfl

/-- Copy-mode construction of a matrix throws when the element count does not
fit into `uword`. -/
theorem mat_fromAuxMem_too_large {α : Type} [Zero α] (aux_mem : List α) (r c : Nat)
    (strict : Bool) (h : ARMA_MAX_UWORD < r * c) :
    Mat.fromAuxMem aux_mem r c true strict = none := by
  simp only [Mat.fromAuxMem, h, if_true]

/-- Copy-mode construction of a cube throws when the element count does not
fit into `uword`. -/
theorem cube_fromAuxMem_too_large {α : Type} [Zero α] (aux_mem : List α) (r c n : Nat)
    (strict : Bool) (h : ARMA_MAX_UWORD < r * c * n) :
    Cube.fromAuxMem aux_mem r c n true strict = none := by
  simp only [Cube.fromAuxMem, h, if_true]

/-- The column-major enumeration of a matrix over a block, with the offsets
computed in `uword`, is the block. -/
theorem colMajor_getD {α : Type} [Zero α] (l : List α) (r c : Nat) (hn : r * c < 2 ^ 32)
    (hlen : r * c ≤ l.length) :
    colMajor r c (fun i j => (l.take (r * c)).getD (toUInt32 (i + j * r)) 0) =
      l.take (r * c) := by
  have h := colMajor_eq_take (l.take (r * c))
    (fun i j => (l.take (r * c)).getD (toUInt32 (i + j * r)) 0) r c
    (fun i hi j hj => by
      have hidx := index_lt_mul hi hj
      simp only [toUInt32_of_lt (show i + j * r < 2 ^ 32 by omega)]
      exact getElem?_eq_some_getD _ _ _ (by
        rw [List.length_take, Nat.min_eq_left hlen]; exact hidx))
  rw [h, List.take_take, Nat.min_self]

/-- The slice-major enumeration of a cube over a block, with the offsets
computed in `uword`, is the block. -/
theorem sliceMajor_getD {α : Type} [Zero α] (l : List α) (r c n : Nat)
    (hn : r * c * n < 2 ^ 32) (hlen : r * c * n ≤ l.length) :
    sliceMajor r c n
        (fun i j k => (l.take (r * c * n)).getD (toUInt32 (i + j * r + k * (r * c))) 0) =
      l.take (r * c * n) := by
  have h := sliceMajor_eq_take (l.take (r * c * n))
    (fun i j k => (l.take (r * c * n)).getD (toUInt32 (i + j * r + k * (r * c))) 0) r c n
    (fun i hi j hj k hk => by
      have hidx := index3_lt_mul hi hj hk
      rw [Nat.mul_assoc k r c] at hidx ⊢
      simp only [toUInt32_of_lt (show i + j * r + k * (r * c) < 2 ^ 32 by omega)]
      exact getElem?_eq_some_getD _ _ _ (by
        rw [List.length_take, Nat.min_eq_left hlen]; exact hidx))
  rw [h, List.take_take, Nat.min_self]

/-! ## The type-tag resolver -/

/-- C5: `getMatlabType` maps `char`, `unsigned char`, `short`, `unsigned short`,
`int`, `unsigned int`, `float` and `double` to `mxINT8_CLASS`, `mxUINT8_CLASS`,
`mxINT16_CLASS`, `mxUINT16_CLASS`, `mxINT32_CLASS`, `mxUINT32_CLASS`,
`mxSINGLE_CLASS` and `mxDOUBLE_CLASS`; the eight tags are pairwise distinct and
none of them is `mxUNKNOWN_CLASS`. -/
theorem getMatlabType_supported :
    getMatlabType .char = .mxINT8_CLASS ∧
    getMatlabType .unsigned_char = .mxUINT8_CLASS ∧
    getMatlabType .short = .mxINT16_CLASS ∧
    getMatlabType .unsigned_short = .mxUINT16_CLASS ∧
    getMatlabType .int = .mxINT32_CLASS ∧
    getMatlabType .unsigned_int = .mxUINT32_CLASS ∧
    getMatlabType .float = .mxSINGLE_CLASS ∧
    getMatlabType .double = .mxDOUBLE_CLASS ∧
    (supportedTypes.map getMatlabType).Pairwise (fun a b => a ≠ b) ∧
    (∀ T ∈ supportedTypes, getMatlabType T ≠ .mxUNKNOWN_CLASS) := by
  decide

/-- C6: for every element type outside the eight supported ones, among them
`long long` and `unsigned long long`, `getMatlabType` returns
`mxUNKNOWN_CLASS`, hence neither `mxINT64_CLASS` nor `mxUINT64_CLASS`. -/
theorem getMatlabType_unsupported (T : CType) (h : T ∉ supportedTypes) :
    getMatlabType T = .mxUNKNOWN_CLASS ∧ getMatlabType T ≠ .mxINT64_CLASS ∧
      getMatlabType T ≠ .mxUINT64_CLASS := by
  have hu : getMatlabType T = .mxUNKNOWN_CLASS := by
    cases T <;> first | rfl | (exfalso; apply h; decide)
  rw [hu]
  decide

theorem getMatlabType_unsupported_witness :
    (CType.long_long ∉ supportedTypes ∧
      (getMatlabType .long_long = .mxUNKNOWN_CLASS ∧
        getMatlabType .long_long ≠ .mxINT64_CLASS ∧
        getMatlabType .long_long ≠ .mxUINT64_CLASS)) ∧
    (CType.unsigned_long_long ∉ supportedTypes ∧
      (getMatlabType .unsigned_long_long = .mxUNKNOWN_CLASS ∧
        getMatlabType .unsigned_long_long ≠ .mxINT64_CLASS ∧
        getMatlabType .unsigned_long_long ≠ .mxUINT64_CLASS)) :=
  ⟨⟨by decide, getMatlabType_unsupported .long_long (by decide)⟩,
    ⟨by decide, getMatlabType_unsupported .unsigned_long_long (by decide)⟩⟩

/-! ## Round trips -/

/-- C1, as stated, fails: the empty host array `zeros(2^31, 0, 'int32')`
comes back with `2^64 - 2^31` rows, because `arma2matlab` narrows `n_rows` to
`int`; and `zeros(65536, 65536, 'int8')` never becomes a matrix, because its
`2^32` elements exceed `ARMA_MAX_UWORD`. -/
theorem roundtrip_mat_counterexample :
    (hostTall.wf ∧
      (Mat.matlab2arma hostTall true false).bind (Mat.arma2matlab .int) =
        some { classID := .mxINT32_CLASS, dims := [2 ^ 64 - 2 ^ 31, 0], data := [] } ∧
      hostTall.dims = [2 ^ 31, 0]) ∧
    (hostSquare.wf ∧
      (Mat.matlab2arma hostSquare true false).bind (Mat.arma2matlab .char) = none) := by
  refine ⟨⟨by decide, ?_, rfl⟩, ⟨?_, ?_⟩⟩
  · decide
  · simp only [mxArray.wf, hostSquare, List.length_replicate]
    decide
  · have h : Mat.matlab2arma hostSquare true false = none :=
      mat_fromAuxMem_too_large _ _ _ _ (by decide)
    rw [h]
    rfl

/-- C1, amended: for every supported element type `T` (the proof does not use
that `T` is supported) and every two-dimensional host array with `r` rows, `c` columns and `r * c` data elements, where `r` and `c`
are below `2^31` and `r * c` is below `2^32`, `matlab2arma` into a matrix in
copy mode followed by `arma2matlab<T>` yields the host array with the same
dimensions, the type tag of `T` and the same data in the same order. -/
theorem roundtrip_mat {α : Type} [Zero α] (T : CType) (X : mxArray α) (r c : Nat)
    (strict : Bool) (hd : X.dims = [r, c]) (hlen : X.data.length = r * c)
    (hr : r < 2 ^ 31) (hc : c < 2 ^ 31) (hn : r * c < 2 ^ 32) :
    (Mat.matlab2arma X true strict).bind (Mat.arma2matlab T) =
      some { X with classID := getMatlabType T } := by
  have hM := mat_fromAuxMem_copy X.data r c strict hn (by omega)
  simp only [Mat.matlab2arma, mxGetM, mxGetN, mxGetData, hd, List.headD_cons, List.tail_cons,
    List.prod_cons, List.prod_nil, Nat.mul_one, toUInt32_of_lt (show r < 2 ^ 32 by omega),
    toUInt32_of_lt (show c < 2 ^ 32 by omega)]
  rw [hM, Option.some_bind, mat_arma2matlab_of_small T _ hr hc]
  simp only []
  rw [colMajor_getD X.data r c hn (by omega), ← hlen, List.take_length, ← hd]

theorem roundtrip_mat_witness :
    (Mat.matlab2arma demoX true false).bind (Mat.arma2matlab .int) = some demoX :=
  roundtrip_mat .int demoX 2 2 false rfl rfl (by decide) (by decide) (by decide)

/-- C2, as stated, fails: the empty host array `zeros(2^31, 0, 2, 'single')`
comes back with `2^64 - 2^31` rows, because `arma2matlab` narrows `n_rows` to
`int`; and `zeros(65536, 65536, 2, 'int8')` never becomes a cube, because its
`2^33` elements exceed `ARMA_MAX_UWORD`. -/
theorem roundtrip_cube_counterexample :
    (hostTall3.wf ∧
      (Cube.matlab2arma hostTall3 true false).bind (Cube.arma2matlab .float) =
        some { classID := .mxSINGLE_CLASS, dims := [2 ^ 64 - 2 ^ 31, 0, 2], data := [] } ∧
      hostTall3.dims = [2 ^ 31, 0, 2]) ∧
    (hostSquare3.wf ∧
      (Cube.matlab2arma hostSquare3 true false).bind (Cube.arma2matlab .char) = none) := by
  refine ⟨⟨by decide, ?_, rfl⟩, ⟨?_, ?_⟩⟩
  · decide
  · simp only [mxArray.wf, hostSquare3, List.length_replicate]
    decide
  · have h : Cube.matlab2arma hostSquare3 true false = none := by
      unfold Cube.matlab2arma
      refine cube_fromAuxMem_too_large _ _ _ _ _ ?_
      decide
    rw [h]
    rfl

/-- C2, amended: for every element type `T` and every host array of two or
three dimensions (no trailing singleton, one data element per index) whose
dimensions are below `2^31` and whose element count is below `2^32`,
`matlab2arma` into a cube in copy mode followed by the cube overload of
`arma2matlab<T>` yields the host array with the same data in the same order,
the type tag of `T` and the same shape; a two-dimensional array of shape
`(r, c)` comes back with shape exactly `(r, c)`. -/
theorem roundtrip_cube {α : Type} [Zero α] (T : CType) (X : mxArray α) (strict : Bool)
    (hwf : X.wf) (hd : X.dims.length = 2 ∨ X.dims.length = 3)
    (hb : ∀ d ∈ X.dims, d < 2 ^ 31) (hn : X.dims.prod < 2 ^ 32) :
    (Cube.matlab2arma X true strict).bind (Cube.arma2matlab T) =
      some { X with classID := getMatlabType T } := by
  obtain ⟨cls, dims, data⟩ := X
  obtain ⟨-, hlast, hlen⟩ := hwf
  simp only at hd hb hn hlast hlen
  rcases dims with _ | ⟨r, _ | ⟨c, _ | ⟨n, _ | ⟨t, rest⟩⟩⟩⟩
  · simp at hd
  · simp at hd
  · -- two dimensions: the cube has one slice
    have hr : r < 2 ^ 31 := hb r (by simp)
    have hc : c < 2 ^ 31 := hb c (by simp)
    simp only [List.prod_cons, List.prod_nil, Nat.mul_one] at hn hlen
    have hM := cube_fromAuxMem_copy data r c 1 strict (by omega) (by omega)
    have h2 : toInt32 2 = 2 := by decide
    simp only [Cube.matlab2arma, mxGetNumberOfDimensions, mxGetDimensions, mxGetData,
      List.length_cons, List.length_nil, h2, if_true, List.getD_cons_zero, List.getD_cons_succ,
      toUInt32_of_lt (show r < 2 ^ 32 by omega), toUInt32_of_lt (show c < 2 ^ 32 by omega)]
    rw [hM, Option.some_bind, cube_arma2matlab_of_small T _ hr hc (show 1 < 2 ^ 31 by decide)]
    simp only []
    rw [sliceMajor_getD data r c 1 (by omega) (by omega), normalizeDims_three, if_pos rfl, Nat.mul_one,
      ← hlen, List.take_length]
  · -- three dimensions, the last one not a singleton
    have hr : r < 2 ^ 31 := hb r (by simp)
    have hc : c < 2 ^ 31 := hb c (by simp)
    have hs : n < 2 ^ 31 := hb n (by simp)
    have hn1 : n ≠ 1 := by
      intro h
      exact hlast (by simp) (by simp [h])
    simp only [List.prod_cons, List.prod_nil, Nat.mul_one, ← Nat.mul_assoc] at hn hlen
    have hM := cube_fromAuxMem_copy data r c n strict hn (by omega)
    have h3 : toInt32 3 ≠ 2 := by decide
    simp only [Cube.matlab2arma, mxGetNumberOfDimensions, mxGetDimensions, mxGetData,
      List.length_cons, List.length_nil, h3, if_false, List.getD_cons_zero, List.getD_cons_succ,
      toUInt32_of_lt (show r < 2 ^ 32 by omega), toUInt32_of_lt (show c < 2 ^ 32 by omega),
      toUInt32_of_lt (show n < 2 ^ 32 by omega)]
    rw [hM, Option.some_bind, cube_arma2matlab_of_small T _ hr hc hs]
    simp only []
    rw [sliceMajor_getD data r c n hn (by omega), normalizeDims_three, if_neg hn1, ← hlen,
      List.take_length]
  · simp at hd

theorem roundtrip_cube_witness :
    ((Cube.matlab2arma demoX3 true false).bind (Cube.arma2matlab .float) = some demoX3) ∧
    ((Cube.matlab2arma demoX true false).bind (Cube.arma2matlab .int) = some demoX) :=
  ⟨roundtrip_cube .float demoX3 false (by decide) (by decide) (by decide) (by decide),
    roundtrip_cube .int demoX false (by decide) (by decide) (by decide) (by decide)⟩

/-! ## Fast path against general path -/

/-- On a contiguous matrix whose sizes fit into `int` the fast path and the
general path return the same host array. -/
theorem mat_contig_eq_general {α : Type} [Zero α] (T : CType) (M : Mat α) (h : M.contiguous)
    (hr : M.n_rows < 2 ^ 31) (hc : M.n_cols < 2 ^ 31) :
    M.arma2matlabContig T = M.arma2matlab T := by
  rw [mat_arma2matlabContig_eq T M h, mat_arma2matlab_of_small T M hr hc]

/-- On a contiguous cube whose sizes fit into `int` the fast path and the
general path return the same host array. -/
theorem cube_contig_eq_general {α : Type} [Zero α] (T : CType) (C : Cube α)
    (h : C.contiguous) (hr : C.n_rows < 2 ^ 31) (hc : C.n_cols < 2 ^ 31)
    (hs : C.n_slices < 2 ^ 31) :
    C.arma2matlabContig T = C.arma2matlab T := by
  rw [cube_arma2matlabContig_eq T C h, cube_arma2matlab_of_small T C hr hc hs]

/-- C3: on the contiguous matrix `arma::Mat<int>(2147483648, 0)` the fast
path returns a host array of dimensions `(2^31, 0)` and the general path one
of dimensions `(2^64 - 2^31, 0)`: the two outputs differ. -/
theorem contig_mat_differs :
    matTall.contiguous ∧
    matTall.arma2matlabContig .int =
      some { classID := .mxINT32_CLASS, dims := [2 ^ 31, 0], data := [] } ∧
    matTall.arma2matlab .int =
      some { classID := .mxINT32_CLASS, dims := [2 ^ 64 - 2 ^ 31, 0], data := [] } ∧
    matTall.arma2matlabContig .int ≠ matTall.arma2matlab .int := by
  refine ⟨⟨rfl, Nat.le_refl _, fun i _ j hj => absurd hj (Nat.not_lt_zero j)⟩, ?_, ?_, ?_⟩ <;>
    decide

/-- C4: on the contiguous cube `arma::Cube<int>(2147483648, 0, 2)` the fast
path returns a host array of dimensions `(2^31, 0, 2)` and the general path
one of dimensions `(2^64 - 2^31, 0, 2)`: the two outputs differ. -/
theorem contig_cube_differs :
    cubeTall.contiguous ∧
    cubeTall.arma2matlabContig .int =
      some { classID := .mxINT32_CLASS, dims := [2 ^ 31, 0, 2], data := [] } ∧
    cubeTall.arma2matlab .int =
      some { classID := .mxINT32_CLASS, dims := [2 ^ 64 - 2 ^ 31, 0, 2], data := [] } ∧
    cubeTall.arma2matlabContig .int ≠ cubeTall.arma2matlab .int := by
  refine ⟨⟨rfl, Nat.le_refl _, fun i _ j hj => absurd hj (Nat.not_lt_zero j)⟩, ?_, ?_, ?_⟩ <;>
    decide

/-! ## Shapes -/

/-- The general path turns every cube of one slice into a host array of two
dimensions. -/
theorem cube_arma2matlab_one_slice {α : Type} [Zero α] (T : CType) (C : Cube α)
    (h1 : C.n_slices = 1) :
    ∃ a, C.arma2matlab T = some a ∧
      a.dims = [toSizeT (toInt32 C.n_rows), toSizeT (toInt32 C.n_cols)] := by
  refine ⟨_, cube_arma2matlab_eq T C, ?_⟩
  have : toSizeT (toInt32 1) = 1 := by decide
  simp only [h1, this, normalizeDims_three, if_true]

/-- The fast path turns every contiguous cube of one slice into a host array
of the two dimensions `(n_rows, n_cols)`. -/
theorem cube_arma2matlabContig_one_slice {α : Type} [Zero α] (T : CType) (C : Cube α)
    (h : C.contiguous) (h1 : C.n_slices = 1) :
    ∃ a, C.arma2matlabContig T = some a ∧ a.dims = [C.n_rows, C.n_cols] := by
  refine ⟨_, cube_arma2matlabContig_eq T C h, ?_⟩
  simp only [h1, normalizeDims_three, if_true]

/-- C9: on the cube `arma::Cube<int>(2147483648, 0, 1)`, of one slice, the
fast path returns a host array of the two dimensions `(2^31, 0)`, which are
`(n_rows, n_cols)`, and the general path one of the two dimensions
`(2^64 - 2^31, 0)`, which are not. -/
theorem one_slice_general_path_dims :
    cubeTallFlat.contiguous ∧ cubeTallFlat.n_slices = 1 ∧
    (cubeTallFlat.arma2matlabContig .int).map (fun a => a.dims) =
      some [cubeTallFlat.n_rows, cubeTallFlat.n_cols] ∧
    (cubeTallFlat.arma2matlab .int).map (fun a => a.dims) = some [2 ^ 64 - 2 ^ 31, 0] ∧
    (cubeTallFlat.arma2matlab .int).map (fun a => a.dims) ≠
      some [cubeTallFlat.n_rows, cubeTallFlat.n_cols] := by
  refine ⟨⟨rfl, Nat.le_refl _, fun i _ j hj => absurd hj (Nat.not_lt_zero j)⟩, rfl, ?_, ?_, ?_⟩ <;>
    decide

/-- C7, as stated, fails: the cube with the single slice `[1,2;3,4]`, of
dimensions `(2, 2, 1)`, is turned into a host array of the two dimensions
`(2, 2)`, not of three. -/
theorem shape_counterexample :
    (demoCubeFlat.n_rows, demoCubeFlat.n_cols, demoCubeFlat.n_slices) = (2, 2, 1) ∧
    (demoCubeFlat.arma2matlab .int).map (fun a => a.dims) = some [2, 2] ∧
    (demoCubeFlat.arma2matlab .int).map (fun a => a.dims.length) ≠ some 3 := by
  decide

/-- C7, amended: for every matrix with `n_rows = r` and `n_cols = c` below
`2^31`, `arma2matlab` returns a host array of the two dimensions `(r, c)`; for
every cube with dimensions `(r, c, s)` below `2^31` it returns a host array of
the three dimensions `(r, c, s)` when `s` is not `1` and of the two dimensions
`(r, c)` when `s` is `1`; the returned array carries the type tag
`getMatlabType<T>`. -/
theorem arma2matlab_shape {α : Type} [Zero α] (T : CType) (M : Mat α) (C : Cube α)
    (hM : M.n_rows < 2 ^ 31 ∧ M.n_cols < 2 ^ 31)
    (hC : C.n_rows < 2 ^ 31 ∧ C.n_cols < 2 ^ 31 ∧ C.n_slices < 2 ^ 31) :
    (∃ a, M.arma2matlab T = some a ∧ a.dims = [M.n_rows, M.n_cols] ∧
      a.classID = getMatlabType T) ∧
    (∃ a, C.arma2matlab T = some a ∧
      a.dims = (if C.n_slices = 1 then [C.n_rows, C.n_cols]
        else [C.n_rows, C.n_cols, C.n_slices]) ∧
      a.classID = getMatlabType T) :=
  ⟨⟨_, mat_arma2matlab_of_small T M hM.1 hM.2, rfl, rfl⟩,
    ⟨_, cube_arma2matlab_of_small T C hC.1 hC.2.1 hC.2.2, normalizeDims_three _ _ _, rfl⟩⟩

theorem arma2matlab_shape_witness :
    (∃ a, demoMat.arma2matlab .int = some a ∧ a.dims = [2, 2] ∧
      a.classID = .mxINT32_CLASS) ∧
    (∃ a, demoCube.arma2matlab .int = some a ∧ a.dims = [2, 2, 2] ∧
      a.classID = .mxINT32_CLASS) :=
  arma2matlab_shape .int demoMat demoCube ⟨by decide, by decide⟩
    ⟨by decide, by decide, by decide⟩

/-- C8, as stated, fails: the empty host array `zeros(2^32, 0, 'int32')` has
`2^32` as the first entry of its shape and becomes a cube with `n_rows = 0`,
in alias mode and in copy mode, because the entry is cast to `unsigned int`. -/
theorem cube_dims_counterexample :
    hostWide.wf ∧ hostWide.dims.getD 0 0 = 2 ^ 32 ∧
    (Cube.matlab2arma hostWide false false).map (fun C => C.n_rows) = some 0 ∧
    (Cube.matlab2arma hostWide true false).map (fun C => C.n_rows) = some 0 := by
  decide

/-- C8, amended: for every host array of two or three dimensions with one data
element per index whose shape entries are below `2^32`, and in copy mode
whose element count is below `2^32`, `matlab2arma` into a cube yields a cube
whose `n_rows` and `n_cols` are the first and second entries of the shape and
whose `n_slices` is the third entry when the array has three dimensions and
`1` when it has two. -/
theorem matlab2arma_cube_dims {α : Type} [Zero α] (X : mxArray α) (copy_aux_mem strict : Bool)
    (hd : X.dims.length = 2 ∨ X.dims.length = 3) (hlen : X.data.length = X.dims.prod)
    (hb : ∀ d ∈ X.dims, d < 2 ^ 32) (hn : copy_aux_mem = true → X.dims.prod < 2 ^ 32) :
    ∃ C, Cube.matlab2arma X copy_aux_mem strict = some C ∧
      C.n_rows = X.dims.getD 0 0 ∧ C.n_cols = X.dims.getD 1 0 ∧
      C.n_slices = (if X.dims.length = 2 then 1 else X.dims.getD 2 0) := by
  obtain ⟨cls, dims, data⟩ := X
  simp only at hd hb hn hlen
  have h2 : toInt32 2 = 2 := by decide
  have h3 : toInt32 3 ≠ 2 := by decide
  rcases dims with _ | ⟨r, _ | ⟨c, _ | ⟨n, _ | ⟨t, rest⟩⟩⟩⟩
  · simp at hd
  · simp at hd
  · have hr : r < 2 ^ 32 := hb r (by simp)
    have hc : c < 2 ^ 32 := hb c (by simp)
    simp only [List.prod_cons, List.prod_nil, Nat.mul_one] at hn hlen
    have key : Cube.matlab2arma { classID := cls, dims := [r, c], data := data }
        copy_aux_mem strict = Cube.fromAuxMem data r c 1 copy_aux_mem strict := by
      simp only [Cube.matlab2arma, mxGetNumberOfDimensions, mxGetDimensions, mxGetData,
        List.length_cons, List.length_nil, h2, if_true, List.getD_cons_zero,
        List.getD_cons_succ, toUInt32_of_lt hr, toUInt32_of_lt hc]
    rw [key]
    cases copy_aux_mem with
    | false =>
      rw [cube_fromAuxMem_alias]
      exact ⟨_, rfl, rfl, rfl, rfl⟩
    | true =>
      rw [cube_fromAuxMem_copy data r c 1 strict (by have := hn rfl; omega) (by omega)]
      exact ⟨_, rfl, rfl, rfl, rfl⟩
  · have hr : r < 2 ^ 32 := hb r (by simp)
    have hc : c < 2 ^ 32 := hb c (by simp)
    have hs : n < 2 ^ 32 := hb n (by simp)
    simp only [List.prod_cons, List.prod_nil, Nat.mul_one, ← Nat.mul_assoc] at hn hlen
    have key : Cube.matlab2arma { classID := cls, dims := [r, c, n], data := data }
        copy_aux_mem strict = Cube.fromAuxMem data r c n copy_aux_mem strict := by
      simp only [Cube.matlab2arma, mxGetNumberOfDimensions, mxGetDimensions, mxGetData,
        List.length_cons, List.length_nil, h3, if_false, List.getD_cons_zero,
        List.getD_cons_succ, toUInt32_of_lt hr, toUInt32_of_lt hc, toUInt32_of_lt hs]
    rw [key]
    cases copy_aux_mem with
    | false =>
      rw [cube_fromAuxMem_alias]
      exact ⟨_, rfl, rfl, rfl, rfl⟩
    | true =>
      rw [cube_fromAuxMem_copy data r c n strict (hn rfl) (by omega)]
      exact ⟨_, rfl, rfl, rfl, rfl⟩
  · simp at hd

theorem matlab2arma_cube_dims_witness :
    (∃ C, Cube.matlab2arma demoX3 true false = some C ∧
      C.n_rows = 2 ∧ C.n_cols = 2 ∧ C.n_slices = 2) ∧
    (∃ C, Cube.matlab2arma demoX false false = some C ∧
      C.n_rows = 2 ∧ C.n_cols = 2 ∧ C.n_slices = 1) :=
  ⟨matlab2arma_cube_dims demoX3 true false (by decide) (by decide) (by decide) (by decide),
    matlab2arma_cube_dims demoX false false (by decide) (by decide) (by decide) (by decide)⟩

/-! ## The `strict` flag -/

theorem wrapInt32_of_mem {z : Int} (h1 : -2 ^ 31 ≤ z) (h2 : z < 2 ^ 31) : wrapInt32 z = z := by
  unfold wrapInt32
  omega

/-- The column-major enumeration of a block through `getD`, with the offsets
computed in `uword`, is the block. -/
theorem colMajor_getD_self {α : Type} [Zero α] (l : List α) (r c : Nat)
    (hn : r * c < 2 ^ 32) (hlen : l.length = r * c) :
    colMajor r c (fun i j => l.getD (toUInt32 (i + j * r)) 0) = l := by
  have h := colMajor_eq_take l (fun i j => l.getD (toUInt32 (i + j * r)) 0) r c
    (fun i hi j hj => by
      have hidx := index_lt_mul hi hj
      simp only [toUInt32_of_lt (show i + j * r < 2 ^ 32 by omega)]
      exact getElem?_eq_some_getD _ _ _ (by rw [hlen]; exact hidx))
  rw [h, ← hlen, List.take_length]

/-- C11, as stated, fails: from the empty host array `zeros(2^31, 0, 'int32')`
the three steps of the demo produce a host array with `2^64 - 2^31` rows, and
`zeros(65536, 65536, 'int32')` does not become a matrix at all. -/
theorem plus_two_counterexample :
    (hostTall.wf ∧ hostTall.dims = [2 ^ 31, 0] ∧
      ((Mat.matlab2arma hostTall true false).bind (fun M => M.scalar_plus 2)).bind
          (Mat.arma2matlab .int) =
        some { classID := .mxINT32_CLASS, dims := [2 ^ 64 - 2 ^ 31, 0], data := [] }) ∧
    (hostSquareInt.wf ∧
      ((Mat.matlab2arma hostSquareInt true false).bind (fun M => M.scalar_plus 2)).bind
          (Mat.arma2matlab .int) = none) := by
  refine ⟨⟨by decide, rfl, by decide⟩, ⟨?_, ?_⟩⟩
  · simp only [mxArray.wf, hostSquareInt, List.length_replicate]
    decide
  · have h : Mat.matlab2arma hostSquareInt true false = none :=
      mat_fromAuxMem_too_large _ _ _ _ (by decide)
    rw [h]
    rfl

/-- C11, amended: for every 2-D host array `X` of shape `(r, c)` with `r` and
`c` below `2^31` and `r * c` below `2^32`, `matlab2arma<int>` into a matrix in
copy mode, adding the scalar `2` to every element in 32 bit `int` arithmetic
and `arma2matlab<int>` yield an `int32` host array of shape `(r, c)` whose data
is the data of `X` with `2` added to every element, so that the value at every
`(row, column)`, offset `row + column * r`, is the value of `X` there plus
`2`. -/
theorem plus_two (X : mxArray Int) (r c : Nat) (strict : Bool)
    (hd : X.dims = [r, c]) (hlen : X.data.length = r * c)
    (hr : r < 2 ^ 31) (hc : c < 2 ^ 31) (hn : r * c < 2 ^ 32) :
    ∃ Y, ((Mat.matlab2arma X true strict).bind (fun M => M.scalar_plus 2)).bind
        (Mat.arma2matlab .int) = some Y ∧
      Y.classID = .mxINT32_CLASS ∧ Y.dims = [r, c] ∧
      Y.data = X.data.map (fun x => wrapInt32 (x + 2)) ∧
      ∀ i < r, ∀ j < c, ∃ x, X.data[i + j * r]? = some x ∧
        Y.data[i + j * r]? = some (wrapInt32 (x + 2)) ∧
        (-2 ^ 31 ≤ x → x + 2 < 2 ^ 31 → Y.data[i + j * r]? = some (x + 2)) := by
  have hM := mat_fromAuxMem_copy X.data r c strict hn (by omega)
  have hout : ((X.data.take (r * c)).take (r * c)).map (fun x => wrapInt32 (x + 2)) =
      X.data.map (fun x => wrapInt32 (x + 2)) := by
    rw [List.take_take, Nat.min_self, ← hlen, List.take_length]
  refine ⟨mxArray.mk .mxINT32_CLASS [r, c] (X.data.map (fun x => wrapInt32 (x + 2))),
    ?_, rfl, rfl, rfl, ?_⟩
  · simp only [Mat.matlab2arma, mxGetM, mxGetN, mxGetData, hd, List.headD_cons,
      List.tail_cons, List.prod_cons, List.prod_nil, Nat.mul_one,
      toUInt32_of_lt (show r < 2 ^ 32 by omega), toUInt32_of_lt (show c < 2 ^ 32 by omega)]
    rw [hM, Option.some_bind]
    have hlt : ¬ (X.data.take (r * c)).length < r * c := by
      rw [List.length_take]; omega
    simp only [Mat.scalar_plus, hlt, if_false, Option.some_bind]
    rw [mat_arma2matlab_of_small .int _ hr hc]
    simp only [hout]
    rw [colMajor_getD_self _ r c hn (by rw [List.length_map]; exact hlen)]
    rfl
  · intro i hi j hj
    have hlt : i + j * r < X.data.length := by rw [hlen]; exact index_lt_mul hi hj
    refine ⟨X.data[i + j * r], List.getElem?_eq_getElem hlt, ?_, ?_⟩
    · simp only [List.getElem?_map, List.getElem?_eq_getElem hlt, Option.map_some']
    · intro h1 h2
      simp only [List.getElem?_map, List.getElem?_eq_getElem hlt, Option.map_some']
      rw [wrapInt32_of_mem (by omega) h2]

theorem plus_two_witness :
    ∃ Y, ((Mat.matlab2arma demoX true false).bind (fun M => M.scalar_plus 2)).bind
        (Mat.arma2matlab .int) = some Y ∧
      Y.classID = .mxINT32_CLASS ∧ Y.dims = [2, 2] ∧ Y.data = [3, 5, 4, 6] ∧
      ∀ i < 2, ∀ j < 2, ∃ x, demoX.data[i + j * 2]? = some x ∧
        Y.data[i + j * 2]? = some (wrapInt32 (x + 2)) ∧
        (-2 ^ 31 ≤ x → x + 2 < 2 ^ 31 → Y.data[i + j * 2]? = some (x + 2)) :=
  plus_two demoX 2 2 false rfl rfl (by decide) (by decide) (by decide)

/-! ## Where the general path puts each element -/

theorem colMajor_getElem? {α : Type} (f : Nat → Nat → α) (r c i j : Nat) (hi : i < r)
    (hj : j < c) : (colMajor r c f)[i + j * r]? = some (f i j) := by
  induction c with
  | zero => omega
  | succ c ih =>
    rw [colMajor_succ]
    rcases Nat.lt_or_ge j c with h | h
    · rw [List.getElem?_append_left (by rw [length_colMajor]; exact index_lt_mul hi h)]
      exact ih h
    · have hjc : j = c := by omega
      subst hjc
      rw [List.getElem?_append_right (by rw [length_colMajor, Nat.mul_comm]; omega),
        length_colMajor, Nat.mul_comm r j, Nat.add_sub_cancel, List.getElem?_map,
        List.getElem?_range hi]
      rfl

theorem sliceMajor_getElem? {α : Type} (f : Nat → Nat → Nat → α) (r c n i j k : Nat)
    (hi : i < r) (hj : j < c) (hk : k < n) :
    (sliceMajor r c n f)[i + j * r + k * r * c]? = some (f i j k) := by
  induction n with
  | zero => omega
  | succ n ih =>
    rw [sliceMajor_succ]
    rcases Nat.lt_or_ge k n with h | h
    · rw [List.getElem?_append_left (by rw [length_sliceMajor]; exact index3_lt_mul hi hj h)]
      exact ih h
    · have hkn : k = n := by omega
      subst hkn
      have hidx : i + j * r + k * r * c = r * c * k + (i + j * r) := by
        rw [Nat.mul_assoc k r c, Nat.mul_comm k (r * c), Nat.add_comm]
      rw [hidx, List.getElem?_append_right (by rw [length_sliceMajor]; omega),
        length_sliceMajor, Nat.add_sub_cancel_left]
      exact colMajor_getElem? (fun i j => f i j k) r c i j hi hj

/-- On a matrix whose sizes fit into `int` the general path puts element
`(i, j)` at offset `i + j * n_rows` of the data. -/
theorem mat_arma2matlab_placement {α : Type} [Zero α] (T : CType) (M : Mat α)
    (hr : M.n_rows < 2 ^ 31) (hc : M.n_cols < 2 ^ 31) :
    ∃ a, M.arma2matlab T = some a ∧
      ∀ i < M.n_rows, ∀ j < M.n_cols, a.data[i + j * M.n_rows]? = some (M.at_ i j) :=
  ⟨_, mat_arma2matlab_of_small T M hr hc, fun i hi j hj =>
    colMajor_getElem? M.at_ M.n_rows M.n_cols i j hi hj⟩

/-- On a cube whose sizes fit into `int` the general path puts element
`(i, j, k)` at offset `i + j * n_rows + k * n_rows * n_cols` of the data. -/
theorem cube_arma2matlab_placement {α : Type} [Zero α] (T : CType) (C : Cube α)
    (hr : C.n_rows < 2 ^ 31) (hc : C.n_cols < 2 ^ 31) (hs : C.n_slices < 2 ^ 31) :
    ∃ a, C.arma2matlab T = some a ∧
      ∀ i < C.n_rows, ∀ j < C.n_cols, ∀ k < C.n_slices,
        a.data[i + j * C.n_rows + k * C.n_rows * C.n_cols]? = some (C.at_ i j k) :=
  ⟨_, cube_arma2matlab_of_small T C hr hc hs, fun i hi j hj k hk =>
    sliceMajor_getElem? C.at_ C.n_rows C.n_cols C.n_slices i j k hi hj hk⟩

theorem matTallOnes_contiguous : matTallOnes.contiguous := by
  refine ⟨by decide, ?_, ?_⟩
  · simp only [matTallOnes, List.length_replicate, Nat.le_refl]
  · intro i hi j hj
    have hj0 : j = 0 := by
      have : j < 1 := hj
      omega
    subst hj0
    have hi' : i < 2 ^ 31 := hi
    simp only [matTallOnes, Nat.zero_mul, Nat.add_zero, List.getElem?_replicate_of_lt hi']

/-- What the general path returns for the one-column matrix of `2^31` ones:
no element is written. -/
theorem matTallOnes_arma2matlab (T : CType) :
    matTallOnes.arma2matlab T = some
      { classID := getMatlabType T, dims := [2 ^ 64 - 2 ^ 31, 1],
        data := List.replicate (2 ^ 64 - 2 ^ 31) 0 } := by
  have h1 : toInt32 matTallOnes.n_rows = -2 ^ 31 := by decide
  have h2 : toInt32 matTallOnes.n_cols = 1 := by decide
  have h3 : toSizeT (-2 ^ 31) = 2 ^ 64 - 2 ^ 31 := by decide
  have h4 : toSizeT 1 = 1 := by decide
  have h5 : (-2 ^ 31 : Int).toNat = 0 := by decide
  have h6 : (1 : Int).toNat = 1 := by decide
  rw [mat_arma2matlab_eq, h1, h2, h3, h4, h5, h6]
  simp only [colMajor, List.range_zero, List.map_nil, List.flatMap_cons, List.flatMap_nil,
    List.range_succ, List.nil_append, List.append_nil, Nat.mul_one, Nat.zero_mul,
    Nat.sub_zero]

/-- C13: on the contiguous matrix `arma::Mat<char>(2147483648, 1)` filled with
ones, `i = 0 < n_rows` and `j = 0 < n_cols`, element `(0, 0)` is `1`, and the
host array `arma2matlab` returns holds `0` at offset `0 + 0 * n_rows`. -/
theorem placement_fails_on_tall_matrix :
    matTallOnes.contiguous ∧ 0 < matTallOnes.n_rows ∧ 0 < matTallOnes.n_cols ∧
    matTallOnes.at_ 0 0 = 1 ∧
    (matTallOnes.arma2matlab .char).bind (fun a => a.data[0 + 0 * matTallOnes.n_rows]?) =
      some 0 := by
  refine ⟨matTallOnes_contiguous, by decide, by decide, rfl, ?_⟩
  rw [matTallOnes_arma2matlab, Option.some_bind]
  exact List.getElem?_replicate_of_lt (by decide)

/-! ## The writes of the general path -/

theorem writesLog_storeNextLog {α : Type} (v : α) : WritesLog (storeNextLog v) [v] := by
  intro dst k log h
  have hw := writes_storeNext v dst k h
  simp only [storeNextLog, hw, Option.map_some', List.length_singleton, List.range'_one]

theorem writesLog_seq {α : Type}
    {f g : (List α × Nat) × List Nat → Option ((List α × Nat) × List Nat)} {xs ys : List α}
    (hf : WritesLog f xs) (hg : WritesLog g ys) :
    WritesLog (fun st => f st >>= g) (xs ++ ys) := by
  intro dst k log h
  simp only [List.length_append] at h
  have hk : (List.take k dst).length = k := by
    simp only [List.length_take]; omega
  have hA : (List.take k dst ++ xs).length = k + xs.length := by
    simp only [List.length_append, hk]
  show f ((dst, k), log) >>= g = _
  rw [hf dst k log (by omega)]
  simp only [Option.some_bind, Option.bind_eq_bind]
  rw [hg _ _ _ (by simp only [List.length_append, List.length_drop, hk]; omega),
    blit_blit _ _ _ _ _ hA, List.drop_drop, List.length_append]
  simp only [List.append_assoc, List.range'_append_1, Nat.add_assoc, Nat.add_comm]

theorem writesLog_nil {α : Type} :
    WritesLog (fun st : (List α × Nat) × List Nat => some st) [] := by
  intro dst k log _
  simp only [List.append_nil, List.length_nil, Nat.add_zero, List.take_append_drop,
    List.range'_zero]

theorem writesLog_forLoop {α : Type} (n : Int)
    (body : Nat → (List α × Nat) × List Nat → Option ((List α × Nat) × List Nat))
    (blk : Nat → List α) (h : ∀ i, WritesLog (body i) (blk i)) :
    WritesLog (forLoop n body) ((List.range n.toNat).flatMap blk) := by
  unfold forLoop
  generalize n.toNat = m
  induction m with
  | zero => simpa using writesLog_nil
  | succ m ih =>
    have := writesLog_seq ih (h m)
    simpa [List.range_succ, List.foldlM_append, List.flatMap_append] using this

theorem writesLog_matLoops {α : Type} (nrows ncols : Int) (f : Nat → Nat → α) :
    WritesLog (forLoop ncols (fun j => forLoop nrows (fun i => storeNextLog (f i j))))
      (colMajor nrows.toNat ncols.toNat f) := by
  have h := writesLog_forLoop ncols
    (fun j => forLoop nrows (fun i => storeNextLog (f i j)))
    (fun j => (List.range nrows.toNat).flatMap (fun i => [f i j]))
    (fun j => writesLog_forLoop nrows _ _ (fun i => writesLog_storeNextLog (f i j)))
  simpa only [flatMap_single, colMajor] using h

theorem writesLog_cubeLoops {α : Type} (nrows ncols nchannels : Int)
    (f : Nat → Nat → Nat → α) :
    WritesLog (forLoop nchannels (fun k => forLoop ncols (fun j =>
        forLoop nrows (fun i => storeNextLog (f i j k)))))
      (sliceMajor nrows.toNat ncols.toNat nchannels.toNat f) := by
  have h := writesLog_forLoop nchannels
    (fun k => forLoop ncols (fun j => forLoop nrows (fun i => storeNextLog (f i j k))))
    (fun k => colMajor nrows.toNat ncols.toNat (fun i j => f i j k))
    (fun k => writesLog_matLoops nrows ncols (fun i j => f i j k))
  simpa only [sliceMajor] using h

/-- What the matrix overload does, for every matrix: it returns the host array
of `Mat.arma2matlab`, and its writes go, in this order, to the indices
`0, 1, ...` below the number of loop iterations, where `count` ends. -/
theorem mat_arma2matlabLog_eq {α : Type} [Zero α] (T : CType) (M : Mat α) :
    ∃ a, M.arma2matlab T = some a ∧
      M.arma2matlabLog T = some
        (a, (toInt32 M.n_rows).toNat * (toInt32 M.n_cols).toNat,
          List.range ((toInt32 M.n_rows).toNat * (toInt32 M.n_cols).toNat)) := by
  refine ⟨_, mat_arma2matlab_eq T M, ?_⟩
  have hfit : (toInt32 M.n_rows).toNat * (toInt32 M.n_cols).toNat ≤
      toSizeT (toInt32 M.n_rows) * toSizeT (toInt32 M.n_cols) :=
    Nat.mul_le_mul (toInt32_toNat_le _) (toInt32_toNat_le _)
  have h := writesLog_matLoops (toInt32 M.n_rows) (toInt32 M.n_cols) M.at_
    (List.replicate (toSizeT (toInt32 M.n_rows) * toSizeT (toInt32 M.n_cols)) (0 : α)) 0 []
    (by simp only [length_colMajor, List.length_replicate]; omega)
  simp only [Mat.arma2matlabLog, mxCreateNumericMatrix, mxGetData, h, Option.map_some',
    List.take_zero, List.nil_append, Nat.zero_add, List.drop_replicate, length_colMajor,
    List.range_eq_range']

/-- What the cube overload does, for every cube: it returns the host array of
`Cube.arma2matlab`, and its writes go, in this order, to the indices
`0, 1, ...` below the number of loop iterations, where `count` ends. -/
theorem cube_arma2matlabLog_eq {α : Type} [Zero α] (T : CType) (C : Cube α) :
    ∃ a, C.arma2matlab T = some a ∧
      C.arma2matlabLog T = some
        (a, (toInt32 C.n_rows).toNat * (toInt32 C.n_cols).toNat * (toInt32 C.n_slices).toNat,
          List.range ((toInt32 C.n_rows).toNat * (toInt32 C.n_cols).toNat *
            (toInt32 C.n_slices).toNat)) := by
  refine ⟨_, cube_arma2matlab_eq T C, ?_⟩
  have hfit : (toInt32 C.n_rows).toNat * (toInt32 C.n_cols).toNat * (toInt32 C.n_slices).toNat ≤
      toSizeT (toInt32 C.n_rows) * toSizeT (toInt32 C.n_cols) * toSizeT (toInt32 C.n_slices) :=
    Nat.mul_le_mul (Nat.mul_le_mul (toInt32_toNat_le _) (toInt32_toNat_le _))
      (toInt32_toNat_le _)
  have h := writesLog_cubeLoops (toInt32 C.n_rows) (toInt32 C.n_cols) (toInt32 C.n_slices)
    C.at_
    (List.replicate (toSizeT (toInt32 C.n_rows) * toSizeT (toInt32 C.n_cols) *
      toSizeT (toInt32 C.n_slices)) (0 : α)) 0 []
    (by simp only [length_sliceMajor, List.length_replicate]; omega)
  simp only [Cube.arma2matlabLog, mxCreateNumericArray, mxGetData, List.prod_cons,
    List.prod_nil, Nat.mul_one, ← Nat.mul_assoc, h, Option.map_some', List.take_zero,
    List.nil_append, Nat.zero_add, List.drop_replicate, length_sliceMajor,
    List.range_eq_range']

/-- On a matrix whose sizes fit into `int`, the writes of the general path go
to the indices `0, 1, ..., n_rows * n_cols - 1`, each once and in this order,
all below the `n_rows * n_cols` elements allocated, and `count` ends at
`n_rows * n_cols`. -/
theorem mat_arma2matlab_writes {α : Type} [Zero α] (T : CType) (M : Mat α)
    (hr : M.n_rows < 2 ^ 31) (hc : M.n_cols < 2 ^ 31) :
    ∃ a, M.arma2matlabLog T =
        some (a, M.n_rows * M.n_cols, List.range (M.n_rows * M.n_cols)) ∧
      M.arma2matlab T = some a ∧ a.data.length = M.n_rows * M.n_cols := by
  obtain ⟨a, ha, hlog⟩ := mat_arma2matlabLog_eq T M
  rw [toInt32_of_lt hr, toInt32_of_lt hc] at hlog
  refine ⟨a, hlog, ha, ?_⟩
  rw [mat_arma2matlab_of_small T M hr hc] at ha
  rw [← Option.some.inj ha]
  exact length_colMajor _ _ _

/-- On a cube whose sizes fit into `int`, the writes of the general path go to
the indices `0, 1, ..., n_rows * n_cols * n_slices - 1`, each once and in this
order, all below the number of elements allocated, and `count` ends at
`n_rows * n_cols * n_slices`. -/
theorem cube_arma2matlab_writes {α : Type} [Zero α] (T : CType) (C : Cube α)
    (hr : C.n_rows < 2 ^ 31) (hc : C.n_cols < 2 ^ 31) (hs : C.n_slices < 2 ^ 31) :
    ∃ a, C.arma2matlabLog T =
        some (a, C.n_rows * C.n_cols * C.n_slices,
          List.range (C.n_rows * C.n_cols * C.n_slices)) ∧
      C.arma2matlab T = some a ∧ a.data.length = C.n_rows * C.n_cols * C.n_slices := by
  obtain ⟨a, ha, hlog⟩ := cube_arma2matlabLog_eq T C
  rw [toInt32_of_lt hr, toInt32_of_lt hc, toInt32_of_lt hs] at hlog
  refine ⟨a, hlog, ha, ?_⟩
  rw [cube_arma2matlab_of_small T C hr hc hs] at ha
  rw [← Option.some.inj ha]
  exact length_sliceMajor _ _ _ _

/-- C14: on the contiguous matrix `arma::Mat<char>(2147483648, 1)`, of
`n_rows * n_cols = 2^31` elements, the general path writes to no destination
index at all and `count` ends at `0`. -/
theorem writes_miss_tall_matrix :
    matTallOnes.contiguous ∧ matTallOnes.n_rows * matTallOnes.n_cols = 2 ^ 31 ∧
    (matTallOnes.arma2matlabLog .char).map (fun p => p.2) = some (0, []) := by
  refine ⟨matTallOnes_contiguous, by decide, ?_⟩
  obtain ⟨a, -, hlog⟩ := mat_arma2matlabLog_eq .char matTallOnes
  have h1 : (toInt32 matTallOnes.n_rows).toNat = 0 := by decide
  rw [hlog, h1]
  simp only [Option.map_some', Nat.zero_mul, List.range_zero]

/-! ## The reverse round trip -/

/-- For a matrix whose sizes fit into `int` and whose element count is below
`2^32`, `arma2matlab` followed by `matlab2arma` in copy mode yields a matrix
with the same `n_rows` and `n_cols` and the same value at every `(i, j)`. -/
theorem reverse_roundtrip_of_small {α : Type} [Zero α] (T : CType) (M : Mat α)
    (strict : Bool) (hr : M.n_rows < 2 ^ 31) (hc : M.n_cols < 2 ^ 31)
    (hn : M.n_rows * M.n_cols < 2 ^ 32) :
    ∃ R, (M.arma2matlab T).bind (fun a => Mat.matlab2arma a true strict) = some R ∧
      R.n_rows = M.n_rows ∧ R.n_cols = M.n_cols ∧
      ∀ i < M.n_rows, ∀ j < M.n_cols, R.at_ i j = M.at_ i j := by
  have hlen := length_colMajor M.n_rows M.n_cols M.at_
  have hM := mat_fromAuxMem_copy (colMajor M.n_rows M.n_cols M.at_) M.n_rows M.n_cols strict
    hn (by omega)
  refine ⟨Mat.mk M.n_rows M.n_cols (M.n_rows * M.n_cols)
    (List.take (M.n_rows * M.n_cols) (colMajor M.n_rows M.n_cols M.at_))
    (fun i j => (List.take (M.n_rows * M.n_cols)
      (colMajor M.n_rows M.n_cols M.at_)).getD (toUInt32 (i + j * M.n_rows)) 0),
    ?_, rfl, rfl, ?_⟩
  · rw [mat_arma2matlab_of_small T M hr hc, Option.some_bind]
    simp only [Mat.matlab2arma, mxGetM, mxGetN, mxGetData, List.headD_cons, List.tail_cons,
      List.prod_cons, List.prod_nil, Nat.mul_one,
      toUInt32_of_lt (show M.n_rows < 2 ^ 32 by omega),
      toUInt32_of_lt (show M.n_cols < 2 ^ 32 by omega)]
    exact hM
  · intro i hi j hj
    have hidx := index_lt_mul hi hj
    simp only [List.getD_eq_getElem?_getD,
      toUInt32_of_lt (show i + j * M.n_rows < 2 ^ 32 by omega)]
    rw [List.getElem?_take_of_lt hidx, colMajor_getElem? M.at_ _ _ i j hi hj,
      Option.getD_some]

/-- C15: for the matrix `arma::Mat<char>(2147483648, 1)` filled with ones,
`arma2matlab` followed by `matlab2arma` in copy mode yields a matrix whose
element `(0, 0)` is `0`, not `1`. -/
theorem reverse_roundtrip_fails_on_tall_matrix :
    matTallOnes.contiguous ∧ matTallOnes.at_ 0 0 = 1 ∧
    ∃ R, (matTallOnes.arma2matlab .char).bind (fun a => Mat.matlab2arma a true false) =
        some R ∧
      R.n_rows = 2 ^ 31 ∧ R.n_cols = 1 ∧ R.at_ 0 0 = 0 := by
  refine ⟨matTallOnes_contiguous, rfl, ?_⟩
  have h1 : toUInt32 (2 ^ 64 - 2 ^ 31) = 2 ^ 31 := by decide
  have h2 : toUInt32 1 = 1 := by decide
  have hM := mat_fromAuxMem_copy (List.replicate (2 ^ 64 - 2 ^ 31) (0 : Int)) (2 ^ 31) 1 false
    (by decide) (by rw [List.length_replicate]; decide)
  refine ⟨Mat.mk (2 ^ 31) 1 (2 ^ 31 * 1)
    (List.take (2 ^ 31 * 1) (List.replicate (2 ^ 64 - 2 ^ 31) (0 : Int)))
    (fun i j => (List.take (2 ^ 31 * 1)
      (List.replicate (2 ^ 64 - 2 ^ 31) (0 : Int))).getD (toUInt32 (i + j * 2 ^ 31)) 0),
    ?_, rfl, rfl, ?_⟩
  · rw [matTallOnes_arma2matlab, Option.some_bind]
    simp only [Mat.matlab2arma, mxGetM, mxGetN, mxGetData, List.headD_cons, List.tail_cons,
      List.prod_cons, List.prod_nil, Nat.mul_one, h1, h2]
    exact hM
  · have h0 : toUInt32 (0 + 0 * 2 ^ 31) = 0 := by decide
    simp only [List.getD_eq_getElem?_getD, h0]
    rw [List.getElem?_take_of_lt (by decide),
      List.getElem?_replicate_of_lt (by decide), Option.getD_some]

/-! ## Host arrays of more dimensions than the container -/

/-- C16, as stated, fails: the empty host array `zeros(2^32, 0, 2, 'int32')`
becomes a matrix with `n_rows = 0`, not `2^32`; in copy mode
`zeros(65536, 65536, 2, 'int8')` does not become a matrix at all; and in alias
mode the array of shape `(65536, 65536, 2)` with a second slice of ones becomes
a matrix of `n_elem = 0` in which element `(0, 0, 1)` of the array, a one at
offset `2^32`, is not found at `(0, 0 + 1 * 65536)`. -/
theorem flatten_counterexample :
    (hostWide3.wf ∧ hostWide3.dims = [2 ^ 32, 0, 2] ∧
      (Mat.matlab2arma hostWide3 false false).map (fun M => M.n_rows) = some 0 ∧
      (Mat.matlab2arma hostWide3 true false).map (fun M => M.n_rows) = some 0) ∧
    (hostSquare3.wf ∧ hostSquare3.dims = [65536, 65536, 2] ∧
      (Mat.matlab2arma hostSquare3 true false).isSome = false) ∧
    (hostSquareSteps3.wf ∧ hostSquareSteps3.dims = [65536, 65536, 2] ∧
      hostSquareSteps3.data[0 + 0 * 65536 + 1 * 65536 * 65536]? = some 1 ∧
      (Mat.matlab2arma hostSquareSteps3 false false).map
          (fun M => (M.n_rows, M.n_cols, M.n_elem, M.at_ 0 (0 + 1 * 65536))) =
        some (65536, 65536 * 2, 0, 0)) := by
  refine ⟨by decide, ⟨?_, rfl, ?_⟩, ⟨?_, rfl, ?_, ?_⟩⟩
  · simp only [mxArray.wf, hostSquare3, List.length_replicate]
    decide
  · have h : Mat.matlab2arma hostSquare3 true false = none :=
      mat_fromAuxMem_too_large _ _ _ _ (by decide)
    rw [h]
    rfl
  · simp only [mxArray.wf, hostSquareSteps3, List.length_append, List.length_replicate]
    decide
  · have hidx : 0 + 0 * 65536 + 1 * 65536 * 65536 = 2 ^ 32 := by decide
    simp only [hostSquareSteps3, hidx]
    rw [List.getElem?_append_right (by rw [List.length_replicate]),
      List.length_replicate, Nat.sub_self]
    exact List.getElem?_replicate_of_lt (by decide)
  · have h : Mat.matlab2arma hostSquareSteps3 false false =
        Mat.fromAuxMem hostSquareSteps3.data 65536 (65536 * 2) false false := by
      have h1 : toUInt32 (mxGetM hostSquareSteps3) = 65536 := by decide
      have h2 : toUInt32 (mxGetN hostSquareSteps3) = 65536 * 2 := by decide
      simp only [Mat.matlab2arma, h1, h2, mxGetData]
    have hmod : 65536 * (65536 * 2) % 2 ^ 32 = 0 := by decide
    rw [h, mat_fromAuxMem_alias, hmod]
    simp only [Option.map_some', List.take_zero, List.getD_eq_getElem?_getD,
      List.getElem?_nil, Option.getD_none]

/-- C16, amended: for every host array of shape `(r, c, s)` with one data
element per index, `r` and `c * s` below `2^32` and `r * c * s` below `2^32`,
`matlab2arma` into a matrix yields a matrix with `r` rows and `c * s` columns
whose memory holds the data of the array unchanged, so that element
`(i, j, k)` of the array, at offset `i + j * r + k * r * c`, is element
`(i, j + k * c)` of the matrix. -/
theorem matlab2arma_flatten {α : Type} [Zero α] (X : mxArray α) (r c n : Nat)
    (copy_aux_mem strict : Bool) (hd : X.dims = [r, c, n])
    (hlen : X.data.length = r * c * n) (hr : r < 2 ^ 32) (hcn : c * n < 2 ^ 32)
    (hn : r * c * n < 2 ^ 32) :
    ∃ M, Mat.matlab2arma X copy_aux_mem strict = some M ∧
      M.n_rows = r ∧ M.n_cols = c * n ∧ M.n_elem = r * c * n ∧ M.mem = X.data ∧
      ∀ i < r, ∀ j < c, ∀ k < n,
        X.data[i + j * r + k * r * c]? = some (M.at_ i (j + k * c)) := by
  have key : Mat.matlab2arma X copy_aux_mem strict =
      Mat.fromAuxMem X.data r (c * n) copy_aux_mem strict := by
    simp only [Mat.matlab2arma, mxGetM, mxGetN, mxGetData, hd, List.headD_cons,
      List.tail_cons, List.prod_cons, List.prod_nil, Nat.mul_one, toUInt32_of_lt hr,
      toUInt32_of_lt hcn]
  have hidx : ∀ i j k, i + (j + k * c) * r = i + j * r + k * r * c := by
    intro i j k
    rw [Nat.add_mul, Nat.mul_assoc k c r, Nat.mul_comm c r, ← Nat.mul_assoc k r c,
      Nat.add_assoc]
  have hn2 : r * (c * n) < 2 ^ 32 := by
    rw [← Nat.mul_assoc]; exact hn
  have hmod : r * (c * n) % 2 ^ 32 = r * (c * n) := Nat.mod_eq_of_lt hn2
  have htake : List.take (r * (c * n)) X.data = X.data := by
    rw [← Nat.mul_assoc, ← hlen, List.take_length]
  have hget : ∀ i < r, ∀ j < c, ∀ k < n,
      X.data[i + j * r + k * r * c]? =
        some (X.data.getD (toUInt32 (i + (j + k * c) * r)) 0) := by
    intro i hi j hj k hk
    have hlt := index3_lt_mul hi hj hk
    rw [hidx, toUInt32_of_lt (show i + j * r + k * r * c < 2 ^ 32 by omega)]
    exact getElem?_eq_some_getD _ _ _ (by rw [hlen]; exact hlt)
  have hval : Mat.fromAuxMem X.data r (c * n) copy_aux_mem strict = some
      { n_rows := r, n_cols := c * n, n_elem := r * (c * n), mem := X.data,
        at_ := fun i j => X.data.getD (toUInt32 (i + j * r)) 0 } := by
    cases copy_aux_mem with
    | false => rw [mat_fromAuxMem_alias, hmod, htake]
    | true =>
      rw [mat_fromAuxMem_copy X.data r (c * n) strict hn2
        (by rw [← Nat.mul_assoc, hlen]), htake]
  rw [key, hval]
  exact ⟨_, rfl, rfl, rfl, (Nat.mul_assoc r c n).symm, rfl, hget⟩

theorem matlab2arma_flatten_witness :
    (∃ M, Mat.matlab2arma hostThreeD true false = some M ∧
      M.n_rows = 2 ∧ M.n_cols = 1 * 3 ∧ M.n_elem = 2 * 1 * 3 ∧ M.mem = hostThreeD.data ∧
      ∀ i < 2, ∀ j < 1, ∀ k < 3,
        hostThreeD.data[i + j * 2 + k * 2 * 1]? = some (M.at_ i (j + k * 1))) ∧
    (∃ M, Mat.matlab2arma hostThreeD false false = some M ∧
      M.n_rows = 2 ∧ M.n_cols = 1 * 3 ∧ M.n_elem = 2 * 1 * 3 ∧ M.mem = hostThreeD.data ∧
      ∀ i < 2, ∀ j < 1, ∀ k < 3,
        hostThreeD.data[i + j * 2 + k * 2 * 1]? = some (M.at_ i (j + k * 1))) :=
  ⟨matlab2arma_flatten hostThreeD 2 1 3 true false rfl rfl (by decide) (by decide)
      (by decide),
    matlab2arma_flatten hostThreeD 2 1 3 false false rfl rfl (by decide) (by decide)
      (by decide)⟩

/-- C17, as stated, fails: the empty four-dimensional host array
`zeros(2, 2, 2, 0, 'int32')` has no data; in copy mode the cube constructor
reads eight elements past the end of its block, and in alias mode the cube of
shape `(2, 2, 2)` and `n_elem = 8` sits on a block of no elements. -/
theorem truncate_counterexample :
    hostFourEmpty.wf ∧ hostFourEmpty.dims = [2, 2, 2, 0] ∧ hostFourEmpty.data.length = 0 ∧
    (Cube.matlab2arma hostFourEmpty true false).isSome = false ∧
    (Cube.matlab2arma hostFourEmpty false false).map
        (fun C => (C.n_rows, C.n_cols, C.n_slices, C.n_elem, C.mem.length)) =
      some (2, 2, 2, 8, 0) := by
  decide

/-- C17, amended: for every host array of at least four (and fewer than
`2^31`) dimensions whose first three entries `d0`, `d1`, `d2` are below `2^32`
and whose data holds at least `d0 * d1 * d2 < 2^32` elements, `matlab2arma`
into a cube yields a cube of shape `(d0, d1, d2)` with `d0 * d1 * d2` elements,
which are the first `d0 * d1 * d2` elements of the data, element `(i, j, k)`
being the one at offset `i + j * d0 + k * d0 * d1`; in copy mode the memory of
the cube is exactly this prefix of the data. -/
theorem matlab2arma_cube_truncates {α : Type} [Zero α] (X : mxArray α)
    (d0 d1 d2 : Nat) (rest : List Nat) (copy_aux_mem strict : Bool)
    (hd : X.dims = d0 :: d1 :: d2 :: rest) (h4 : rest ≠ []) (hnd : X.dims.length < 2 ^ 31)
    (h0 : d0 < 2 ^ 32) (h1 : d1 < 2 ^ 32) (h2 : d2 < 2 ^ 32)
    (hn : d0 * d1 * d2 < 2 ^ 32) (hlen : d0 * d1 * d2 ≤ X.data.length) :
    ∃ C, Cube.matlab2arma X copy_aux_mem strict = some C ∧
      C.n_rows = d0 ∧ C.n_cols = d1 ∧ C.n_slices = d2 ∧ C.n_elem = d0 * d1 * d2 ∧
      (copy_aux_mem = true → C.mem = X.data.take (d0 * d1 * d2)) ∧
      ∀ i < d0, ∀ j < d1, ∀ k < d2,
        (X.data.take (d0 * d1 * d2))[i + j * d0 + k * d0 * d1]? = some (C.at_ i j k) := by
  have hlen4 : 4 ≤ X.dims.length := by
    rw [hd]
    cases rest with
    | nil => exact absurd rfl h4
    | cons t ts => simp only [List.length_cons]; omega
  have hnd2 : toInt32 (mxGetNumberOfDimensions X) ≠ 2 := by
    unfold mxGetNumberOfDimensions
    rw [toInt32_of_lt hnd]
    omega
  have key : Cube.matlab2arma X copy_aux_mem strict =
      Cube.fromAuxMem X.data d0 d1 d2 copy_aux_mem strict := by
    simp only [Cube.matlab2arma, hnd2, if_false, mxGetData]
    simp only [mxGetDimensions, hd, List.getD_cons_zero, List.getD_cons_succ,
      toUInt32_of_lt h0, toUInt32_of_lt h1, toUInt32_of_lt h2]
  have hmod : d0 * d1 * d2 % 2 ^ 32 = d0 * d1 * d2 := Nat.mod_eq_of_lt hn
  have hget : ∀ i < d0, ∀ j < d1, ∀ k < d2,
      (X.data.take (d0 * d1 * d2))[i + j * d0 + k * d0 * d1]? =
        some ((X.data.take (d0 * d1 * d2)).getD
          (toUInt32 (i + j * d0 + k * (d0 * d1))) 0) := by
    intro i hi j hj k hk
    have hidx := index3_lt_mul hi hj hk
    rw [Nat.mul_assoc k d0 d1] at hidx ⊢
    rw [toUInt32_of_lt (show i + j * d0 + k * (d0 * d1) < 2 ^ 32 by omega)]
    exact getElem?_eq_some_getD _ _ _ (by
      rw [List.length_take, Nat.min_eq_left hlen]; exact hidx)
  rw [key]
  cases copy_aux_mem with
  | false =>
    rw [cube_fromAuxMem_alias, hmod]
    exact ⟨_, rfl, rfl, rfl, rfl, rfl, fun h => absurd h (by decide), hget⟩
  | true =>
    rw [cube_fromAuxMem_copy X.data d0 d1 d2 strict hn hlen]
    exact ⟨_, rfl, rfl, rfl, rfl, rfl, fun _ => rfl, hget⟩

theorem matlab2arma_cube_truncates_witness :
    (∃ C, Cube.matlab2arma hostFourD true false = some C ∧
      C.n_rows = 2 ∧ C.n_cols = 1 ∧ C.n_slices = 2 ∧ C.n_elem = 2 * 1 * 2 ∧
      (true = true → C.mem = hostFourD.data.take (2 * 1 * 2)) ∧
      ∀ i < 2, ∀ j < 1, ∀ k < 2,
        (hostFourD.data.take (2 * 1 * 2))[i + j * 2 + k * 2 * 1]? = some (C.at_ i j k)) ∧
    (∃ C, Cube.matlab2arma hostFourD false false = some C ∧
      C.n_rows = 2 ∧ C.n_cols = 1 ∧ C.n_slices = 2 ∧ C.n_elem = 2 * 1 * 2 ∧
      (false = true → C.mem = hostFourD.data.take (2 * 1 * 2)) ∧
      ∀ i < 2, ∀ j < 1, ∀ k < 2,
        (hostFourD.data.take (2 * 1 * 2))[i + j * 2 + k * 2 * 1]? = some (C.at_ i j k)) :=
  ⟨matlab2arma_cube_truncates hostFourD 2 1 2 [2] true false rfl (by decide) (by decide)
      (by decide) (by decide) (by decide) (by decide) (by decide),
    matlab2arma_cube_truncates hostFourD 2 1 2 [2] false false rfl (by decide) (by decide)
      (by decide) (by decide) (by decide) (by decide) (by decide)⟩

end TEMatArma
